import Mathlib

/-!
Verification development for the sudoku-lib engine.

The repository contains two parallel engine implementations:

* `sudoku_lib/solver.py` (class `SudokuSolver`: `solve`, `_solve_step_by_step`,
  `_is_safe`, `get_hint`) together with `sudoku_lib/game.py`
  (class `SudokuGame`: `_solve_grid`, `_is_safe`, `verify_solution`) and the
  FastAPI layer `sudoku_lib/api.py` (`validate_solution`);
* the standalone `sudoku_solver.py` (class `SudokuSolver`: `solve`,
  `_solve_backtracking`, `_is_valid`, `check_move`, `get_hint`,
  `get_possible_values`, `get_cell_candidates`).

A 9x9 numpy grid is embedded as a function `Nat → Nat` read at row-major
positions `p = 9*r + c` for `p < 81` (cells outside `0..80` are never read by
the embedded operations on the reachable call graph).  Mutation of `self.grid`
becomes functional update (`setCell`), and the recursive backtrackers are
translated with a structural fuel argument that exactly matches the recursion
depth discipline of the Python code (for the row-major scanner the fuel equals
`81 - pos`; for the `find_empty`-based solvers a fuel of `82` dominates the
number of empty cells ever observed, and the digit loops carry the constant
fuel `9` for digits `num, num+1, ..., 9`).

The JSON persistence layer (`sudoku_solutions.json`) is modelled as the
in-memory association list `puzzles` of a `Session`, initialised empty exactly
as `load_solutions_data` initialises `DEFAULT_STRUCTURE` when no solutions
file exists; the cache key `grid_to_key` (comma-joined cell values) is
injective on 81-cell grids, so the string-keyed dictionary is modelled as a
list keyed by equality of the 81 cell values.  Trace strings are modelled by
the inductive `Step` (one constructor per distinct `steps.append`/message
site), so trace lengths coincide with the Python trace lengths.  The Python
`set` of hint coordinates is modelled as a list: `add` appends, membership is
`contains` (the solvers of this repository never observe duplicates).
-/

abbrev Grid := Nat → Nat

/-- Read the cell at row `r`, column `c` (row-major position `9*r + c`). -/
def cell (g : Grid) (r c : Nat) : Nat := g (9 * r + c)

/-- Functional update of position `p`, the embedding of
`self.grid[row][col] = v` at `p = 9*row + col`. -/
def setCell (g : Grid) (p v : Nat) : Grid := fun q => if q = p then v else g q

/-- Values of row `r`: the embedding of `self.grid[row]`. -/
def rowVals (g : Grid) (r : Nat) : List Nat := (List.range 9).map fun j => g (9 * r + j)

/-- Values of column `c`: the embedding of `self.grid[:, c]`. -/
def colVals (g : Grid) (c : Nat) : List Nat := (List.range 9).map fun i => g (9 * i + c)

/-- Values of the 3x3 box containing `(r, c)`, scanned in the order of the
two nested Python loops (`i` from `3*(r//3)`, `j` from `3*(c//3)`). -/
def boxVals (g : Grid) (r c : Nat) : List Nat :=
  (List.range 9).map fun t => g (9 * (3 * (r / 3) + t / 3) + (3 * (c / 3) + t % 3))

/-- Membership test `v in values`, the embedding of Python `in` on a row,
column or box slice. -/
def hasVal (l : List Nat) (v : Nat) : Bool := l.any fun x => x == v

/-- `SudokuSolver._is_safe(row, col, num)` of `sudoku_lib/solver.py` (and the
identical `SudokuGame._is_safe` of `sudoku_lib/game.py`): `num` may be placed
at `(r, c)` when it appears nowhere in row `r`, column `c`, or the box of
`(r, c)` — the cell `(r, c)` itself included. -/
def isSafe (g : Grid) (r c num : Nat) : Bool :=
  if hasVal (rowVals g r) num then false
  else if hasVal (colVals g c) num then false
  else if hasVal (boxVals g r c) num then false
  else true

/-- One constructor per distinct trace-line format produced by the two
solvers; a trace is a `List Step`, whose length equals the length of the
Python `steps` list. -/
inductive Step where
  /-- `"Try {num} at position ({row+1}, {col+1})"` (`sudoku_lib/solver.py`). -/
  | tryS (r c n : Nat)
  /-- `"Backtrack: Remove {num} from ({row+1}, {col+1})"` (`sudoku_lib/solver.py`). -/
  | backS (r c n : Nat)
  /-- `"Using cached solution"` (`sudoku_lib/solver.py`). -/
  | cachedS
  /-- `"Found naked single {value} at row {row+1}, column {col+1}"` (`sudoku_solver.py`). -/
  | nakedS (r c n : Nat)
  /-- `"Found hidden single {num} at row {row+1}, column {col+1}"` (`sudoku_solver.py`). -/
  | hiddenS (r c n : Nat)
  /-- `"Using backtracking algorithm to complete the solution"` (`sudoku_solver.py`). -/
  | useBacktrack
  /-- `"Trying {num} at row {row+1}, column {col+1}"` (`sudoku_solver.py`). -/
  | tryingS (r c n : Nat)
  /-- `"Backtracking: removing {num} from row {row+1}, column {col+1}"` (`sudoku_solver.py`). -/
  | removingS (r c n : Nat)
  /-- `"Solution found!"` (`sudoku_solver.py`). -/
  | solutionFound
  /-- `"Found cached solution for puzzle {grid_key}"` (`sudoku_solver.py`). -/
  | foundCached
deriving DecidableEq

/-- Digit loop of `SudokuSolver._solve_step_by_step` (`sudoku_lib/solver.py`,
`for num in range(1, 10)`): at position `pos` try digits `num, num+1, ...`;
the fuel `d` counts the remaining digits (`d = 10 - num`, so `d = 0` is the
loop exhausting after digit 9 and returning `False`).  The continuation `k`
is the recursive call `_solve_step_by_step(row, col + 1, steps)` into the
next position; a successful placement appends a try step, a failed recursion
resets the cell to `0` and appends a backtrack step, exactly as the Python
body does. -/
def libDig (k : Grid → List Step → Bool × Grid × List Step) :
    Nat → Grid → Nat → Nat → List Step → Bool × Grid × List Step
  | 0, g, _, _, st => (false, g, st)
  | d + 1, g, pos, num, st =>
    if isSafe g (pos / 9) (pos % 9) num then
      let r := k (setCell g pos num) (st ++ [Step.tryS (pos / 9) (pos % 9) num])
      if r.1 then r
      else
        libDig k d (setCell r.2.1 pos 0) pos (num + 1)
          (r.2.2 ++ [Step.backS (pos / 9) (pos % 9) num])
    else libDig k d g pos (num + 1) st

/-- `SudokuSolver._solve_step_by_step(row, col, steps)` of
`sudoku_lib/solver.py`, at row-major position `pos = 9*row + col` after the
`col == 9` normalisation; the structural fuel equals `81 - pos`, so fuel `0`
is exactly the `row == 9` base case returning `True`.  A non-empty cell is
skipped, an empty cell enters the digit loop at `num = 1`. -/
def libAux : Nat → Grid → Nat → List Step → Bool × Grid × List Step
  | 0, g, _, st => (true, g, st)
  | fuel + 1, g, pos, st =>
    if g pos != 0 then libAux fuel g (pos + 1) st
    else libDig (fun g' st' => libAux fuel g' (pos + 1) st') 9 g pos 1 st

/-- `self._solve_step_by_step(0, 0, steps)` with `steps = []`: the whole
backtracking run of `sudoku_lib/solver.py`. -/
def solveStepByStep (g : Grid) : Bool × Grid × List Step := libAux 81 g 0 []

/-- Common state of both `SudokuSolver` classes: `grid` (working grid),
`orig` (`original_grid`), `used` (`used_hints`), and `puzzles` (the
`solutions_data["puzzles"]` cache, as pairs of original grid and first
stored solution grid; empty when no solutions file exists). -/
structure Session where
  grid : Grid
  orig : Grid
  used : List (Nat × Nat)
  puzzles : List (Grid × Grid)

/-- Equality of two grids on the 81 cells, the equality of their
`grid_to_key` strings (the comma-joined flattening is injective on 81-cell
grids). -/
def gridEqB (g1 g2 : Grid) : Bool := (List.range 81).all fun p => g1 p == g2 p

/-- Dictionary lookup `solutions_data["puzzles"][grid_key]["solutions"][0]["grid"]`:
find the stored first solution of an original grid. -/
def lookupPuzzle (cache : List (Grid × Grid)) (k : Grid) : Option Grid :=
  (cache.find? fun e => gridEqB e.1 k).map (·.2)

/-- `SudokuSolver.__init__(grid)` with no `sudoku_solutions.json` present:
both grids are copies of the input, no hints used, empty puzzle cache
(`DEFAULT_STRUCTURE`). -/
def initSession (g : Grid) : Session := { grid := g, orig := g, used := [], puzzles := [] }

/-- `SudokuSolver.solve` of `sudoku_lib/solver.py`: on a cache hit for the
original grid, load the first cached solution and return the one-line trace;
otherwise run `_solve_step_by_step(0, 0, steps)` and, on success, store the
solved grid in the cache (`save_puzzle_state`). -/
def libSolve (s : Session) : Bool × List Step × Session :=
  match lookupPuzzle s.puzzles s.orig with
  | some sol => (true, [Step.cachedS], { s with grid := sol })
  | none =>
    let r := solveStepByStep s.grid
    if r.1 then
      (true, r.2.2, { s with grid := r.2.1, puzzles := s.puzzles ++ [(s.orig, r.2.1)] })
    else (false, r.2.2, { s with grid := r.2.1 })

/-- A fresh solving session on grid `g` followed by one `solve` call. -/
def libSolveFresh (g : Grid) : Bool × List Step × Session := libSolve (initSession g)

/-- Hint rationale messages of both `get_hint` implementations. -/
inductive Hmsg where
  /-- `"Try {value} here"`. -/
  | tryHere (v : Nat)
  /-- `"This cell can only be {value}"` (`sudoku_solver.py`). -/
  | canOnlyBe (v : Nat)
  /-- `"Only this cell in row {row+1} can be {num}"` (`sudoku_solver.py`). -/
  | onlyCellInRow (r v : Nat)
deriving DecidableEq

/-- `SudokuSolver.get_hint` of `sudoku_lib/solver.py`: snapshot the working
grid, run `solve`; on success restore the working grid and return the first
row-major cell that is empty in the snapshot but filled in the solution,
adding it to `used_hints` before returning.  Note the scan does not consult
`used_hints`. -/
def libGetHint (s : Session) : Option (Nat × Nat × Nat × Hmsg) × Session :=
  let orig := s.grid
  let r := libSolve s
  if r.1 then
    let s1 := r.2.2
    let sol := s1.grid
    let s2 := { s1 with grid := orig }
    match (List.range 81).find? (fun p => (orig p == 0) && (sol p != 0)) with
    | some p =>
        (some (p / 9, p % 9, sol p, Hmsg.tryHere (sol p)),
          { s2 with used := s2.used ++ [(p / 9, p % 9)] })
    | none => (none, s2)
  else (none, r.2.2)

/-- The cyclic-shift complete Sudoku grid `(3*(r % 3) + r/3 + c) % 9 + 1`,
used as a concrete evaluation input. -/
def demoGrid : Grid := fun p => (3 * ((p / 9) % 3) + (p / 9) / 3 + p % 9) % 9 + 1

/-- `demoGrid` with the top-left cell erased. -/
def demoHole : Grid := setCell demoGrid 0 0

/-- The all-ones grid: every cell holds `1`. -/
def allOnes : Grid := fun _ => 1

/-! ### Semantic predicates about grids -/

/-- Positions `p` and `q` lie in the same row. -/
def sameRow (p q : Nat) : Prop := p / 9 = q / 9

/-- Positions `p` and `q` lie in the same column. -/
def sameCol (p q : Nat) : Prop := p % 9 = q % 9

/-- Positions `p` and `q` lie in the same 3x3 box. -/
def sameBox (p q : Nat) : Prop := p / 27 = q / 27 ∧ p % 9 / 3 = q % 9 / 3

/-- Positions `p` and `q` share a row, column or box. -/
def sameGroup (p q : Nat) : Prop := sameRow p q ∨ sameCol p q ∨ sameBox p q

/-- No empty cell remains. -/
def complete (g : Grid) : Prop := ∀ p, p < 81 → g p ≠ 0

/-- All cell values lie in `[0, 9]` (the data-model invariant for grids). -/
def inRange (g : Grid) : Prop := ∀ p, p < 81 → g p ≤ 9

/-- No non-zero value is repeated within any row, column or box: the givens
are mutually consistent. -/
def noConflicts (g : Grid) : Prop :=
  ∀ p q, p < 81 → q < 81 → p ≠ q → sameGroup p q → g p ≠ 0 → g p ≠ g q

/-- A valid partial grid: in-range values and consistent givens. -/
def validPartial (g : Grid) : Prop := inRange g ∧ noConflicts g

/-- `g'` agrees with `g` on every cell that is filled in `g`. -/
def extendsTo (g g' : Grid) : Prop := ∀ p, g p ≠ 0 → g' p = g p

/-- All positions before `pos` are filled (the scan invariant of
`_solve_step_by_step`). -/
def prefixFilled (g : Grid) (pos : Nat) : Prop := ∀ q, q < pos → g q ≠ 0

/-- The 3x3 box with box index `b` (`b / 3` selects the band, `b % 3` the
stack), scanned rows-first as `grid[i:i+3, j:j+3].flatten()` does. -/
def boxList (g : Grid) (b : Nat) : List Nat :=
  (List.range 9).map fun t => g (9 * (3 * (b / 3) + t / 3) + (3 * (b % 3) + t % 3))

/-- Every row, column and box of `g` contains each digit `1..9` exactly
once. -/
def validComplete (g : Grid) : Prop :=
  ∀ i, i < 9 → ∀ v, 1 ≤ v → v ≤ 9 →
    (rowVals g i).count v = 1 ∧ (colVals g i).count v = 1 ∧ (boxList g i).count v = 1

/-- `g'` is a valid completion (a solution) of the puzzle `g`. -/
def solutionOf (g g' : Grid) : Prop := extendsTo g g' ∧ complete g' ∧ validComplete g'

/-! ### The standalone `sudoku_solver.py` engine -/

/-- `SudokuSolver._is_valid(num, pos)` of `sudoku_solver.py`: the row, column
and box scans all exclude the position `pos = (r, c)` itself. -/
def svIsValid (g : Grid) (num r c : Nat) : Bool :=
  if (List.range 9).any (fun i => (g (9 * r + i) == num) && !(c == i)) then false
  else if (List.range 9).any (fun i => (g (9 * i + c) == num) && !(r == i)) then false
  else if (List.range 9).any (fun t =>
      (g (9 * (3 * (r / 3) + t / 3) + (3 * (c / 3) + t % 3)) == num) &&
        !((3 * (r / 3) + t / 3) == r && ((3 * (c / 3) + t % 3) == c))) then false
  else true

/-- `SudokuSolver.get_possible_values(row, col)` of `sudoku_solver.py`: the
empty set for a filled cell, otherwise `{1..9}` minus the values of the row,
the column and the box (the Python set is modelled as the ascending list). -/
def possibleValues (g : Grid) (r c : Nat) : List Nat :=
  if g (9 * r + c) != 0 then []
  else (List.range' 1 9).filter fun v =>
    !(hasVal (rowVals g r) v) && !(hasVal (colVals g c) v) && !(hasVal (boxVals g r c) v)

/-- `SudokuSolver.get_cell_candidates` of `sudoku_solver.py`: the empty cells
in row-major order, each with its non-empty list of possible values. -/
def svCandidates (g : Grid) : List (Nat × Nat × List Nat) :=
  (List.range 81).filterMap fun p =>
    if g p == 0 then
      let s := possibleValues g (p / 9) (p % 9)
      if s.isEmpty then none else some (p / 9, p % 9, s)
    else none

/-- One pass of the naked-single loop of `SudokuSolver.solve`
(`sudoku_solver.py`): the candidate list is computed once (a snapshot) and
each snapshot singleton is placed in turn, setting the `changed` flag.
The accumulator is `(grid, changed, steps)`. -/
def nakedPass (g : Grid) (st : List Step) : Grid × Bool × List Step :=
  (svCandidates g).foldl
    (fun acc e =>
      if e.2.2.length == 1 then
        (setCell acc.1 (9 * e.1 + e.2.1) (e.2.2.headD 0), true,
          acc.2.2 ++ [Step.nakedS e.1 e.2.1 (e.2.2.headD 0)])
      else acc)
    (g, false, st)

/-- The row/digit iteration domain of the hidden-single loops: rows `0..8`
each paired with digits `1..9`, in loop order. -/
def rowNumPairs : List (Nat × Nat) :=
  ((List.range 9).map fun r => (List.range' 1 9).map fun n => (r, n)).flatten

/-- Body of the hidden-single loop of `SudokuSolver.solve`
(`sudoku_solver.py`) for one `(row, num)` pair, reading the current grid:
if `num` is absent from the row and exactly one empty cell of the row admits
it, place it there. -/
def hiddenStep (acc : Grid × Bool × List Step) (rn : Nat × Nat) : Grid × Bool × List Step :=
  if !(hasVal (rowVals acc.1 rn.1) rn.2) then
    let pcols := (List.range 9).filter fun c1 =>
      (acc.1 (9 * rn.1 + c1) == 0) && (possibleValues acc.1 rn.1 c1).contains rn.2
    if pcols.length == 1 then
      (setCell acc.1 (9 * rn.1 + pcols.headD 0) rn.2, true,
        acc.2.2 ++ [Step.hiddenS rn.1 (pcols.headD 0) rn.2])
    else acc
  else acc

/-- The hidden-single pass of `SudokuSolver.solve` (`sudoku_solver.py`). -/
def hiddenPass (g : Grid) (st : List Step) : Grid × Bool × List Step :=
  rowNumPairs.foldl hiddenStep (g, false, st)

/-- The `while changed` loop of `SudokuSolver.solve` (`sudoku_solver.py`):
each iteration runs the naked-single pass and, if it fired nothing, the
hidden-single pass; the loop ends when neither pass changed the grid.  Each
changing iteration fills at least one empty cell, so the structural fuel `82`
dominates the number of iterations and the fuel-exhaustion branch is
unreachable from the wrapper. -/
def logicLoop : Nat → Grid → List Step → Grid × List Step
  | 0, g, st => (g, st)
  | fuel + 1, g, st =>
    let n := nakedPass g st
    if n.2.1 then logicLoop fuel n.1 n.2.2
    else
      let h := hiddenPass n.1 n.2.2
      if h.2.1 then logicLoop fuel h.1 h.2.2
      else (h.1, h.2.2)

/-- `SudokuSolver._find_empty` / `SudokuGame._find_empty`: the first empty
cell in row-major order. -/
def findEmpty (g : Grid) : Option Nat := (List.range 81).find? fun p => g p == 0

/-- `np.any(self.grid == 0)` and the `0 in grid_array` test of the API. -/
def hasZero (g : Grid) : Bool := (List.range 81).any fun p => g p == 0

/-- Digit loop of `SudokuSolver._solve_backtracking` (`sudoku_solver.py`);
same shape as `libDig` but with the `_is_valid` check and the
`sudoku_solver.py` trace messages. -/
def svDig (k : Grid → List Step → Bool × Grid × List Step) :
    Nat → Grid → Nat → Nat → List Step → Bool × Grid × List Step
  | 0, g, _, _, st => (false, g, st)
  | d + 1, g, p, num, st =>
    if svIsValid g num (p / 9) (p % 9) then
      let r := k (setCell g p num) (st ++ [Step.tryingS (p / 9) (p % 9) num])
      if r.1 then r
      else
        svDig k d (setCell r.2.1 p 0) p (num + 1)
          (r.2.2 ++ [Step.removingS (p / 9) (p % 9) num])
    else svDig k d g p (num + 1) st

/-- `SudokuSolver._solve_backtracking` (`sudoku_solver.py`): rescan for the
first empty cell; if none, succeed; otherwise run the digit loop.  Each
recursion step fills the found empty cell, so the fuel `82` used by the
wrapper is never exhausted. -/
def svAux : Nat → Grid → List Step → Bool × Grid × List Step
  | 0, g, st => (false, g, st)
  | fuel + 1, g, st =>
    match findEmpty g with
    | none => (true, g, st)
    | some p => svDig (fun g' st' => svAux fuel g' st') 9 g p 1 st

/-- `self._solve_backtracking(steps)` of `sudoku_solver.py`. -/
def svBacktrack (g : Grid) (st : List Step) : Bool × Grid × List Step := svAux 82 g st

/-- `SudokuSolver.solve` of `sudoku_solver.py`: cache lookup, then the
logical loop, then — if empty cells remain — backtracking; failure restores
the pre-solve grid (`self.grid = original_grid`), success caches the solved
grid (`save_puzzle_state`). -/
def svSolve (s : Session) : Bool × List Step × Session :=
  match lookupPuzzle s.puzzles s.orig with
  | some sol => (true, [Step.foundCached], { s with grid := sol })
  | none =>
    let g0 := s.grid
    let l := logicLoop 82 g0 []
    if hasZero l.1 then
      let r := svBacktrack l.1 (l.2 ++ [Step.useBacktrack])
      if r.1 then
        (true, r.2.2 ++ [Step.solutionFound],
          { s with grid := r.2.1, puzzles := s.puzzles ++ [(s.orig, r.2.1)] })
      else (false, r.2.2, { s with grid := g0 })
    else (true, l.2, { s with grid := l.1, puzzles := s.puzzles ++ [(s.orig, l.1)] })

/-- Reasons returned by `SudokuSolver.check_move` (`sudoku_solver.py`), one
constructor per message format. -/
inductive Reason where
  /-- `"Number already placed here"`. -/
  | alreadyPlaced
  /-- `"Number {num} already exists in row {row+1}"`. -/
  | rowConflict (n r : Nat)
  /-- `"Number {num} already exists in column {col+1}"`. -/
  | colConflict (n c : Nat)
  /-- `"Number {num} already exists in this 3x3 box"`. -/
  | boxConflict (n : Nat)
  /-- `"Valid move"`. -/
  | validMove
deriving DecidableEq

/-- `SudokuSolver.check_move(row, col, num)` of `sudoku_solver.py`.  The cell
content is only compared against `num`; emptiness of the cell is never
tested. -/
def svCheckMove (g : Grid) (r c num : Nat) : Bool × Reason :=
  if g (9 * r + c) == num then (true, Reason.alreadyPlaced)
  else if hasVal (rowVals g r) num then (false, Reason.rowConflict num r)
  else if hasVal (colVals g c) num then (false, Reason.colConflict num c)
  else if hasVal (boxVals g r c) num then (false, Reason.boxConflict num)
  else (true, Reason.validMove)

/-- `SudokuSolver.get_hint` of `sudoku_solver.py`: naked-single scan, then
row-based hidden-single scan, then the solve-and-diff fallback; every branch
skips cells already in `used_hints` and records the chosen cell in
`used_hints` before returning. -/
def svGetHint (s : Session) : Option (Nat × Nat × Nat × Hmsg) × Session :=
  let origG := s.grid
  match (svCandidates s.grid).find? (fun e =>
      (e.2.2.length == 1) && !(s.used.contains (e.1, e.2.1))) with
  | some e =>
      (some (e.1, e.2.1, e.2.2.headD 0, Hmsg.canOnlyBe (e.2.2.headD 0)),
        { s with used := s.used ++ [(e.1, e.2.1)] })
  | none =>
    match rowNumPairs.find? (fun rn =>
        !(hasVal (rowVals s.grid rn.1) rn.2) &&
          (((List.range 9).filter fun c1 =>
              (s.grid (9 * rn.1 + c1) == 0) && !(s.used.contains (rn.1, c1)) &&
                (possibleValues s.grid rn.1 c1).contains rn.2).length == 1)) with
    | some rn =>
        let c1 := ((List.range 9).filter fun c2 =>
          (s.grid (9 * rn.1 + c2) == 0) && !(s.used.contains (rn.1, c2)) &&
            (possibleValues s.grid rn.1 c2).contains rn.2).headD 0
        (some (rn.1, c1, rn.2, Hmsg.onlyCellInRow rn.1 rn.2),
          { s with used := s.used ++ [(rn.1, c1)] })
    | none =>
      let r := svSolve s
      if r.1 then
        let s1 := r.2.2
        match (List.range 81).find? (fun p =>
            (origG p == 0) && (s1.grid p != 0) && !(s1.used.contains (p / 9, p % 9))) with
        | some p =>
            (some (p / 9, p % 9, s1.grid p, Hmsg.tryHere (s1.grid p)),
              { s1 with used := s1.used ++ [(p / 9, p % 9)] })
        | none => (none, s1)
      else (none, r.2.2)

/-! ### The game backtracker of `sudoku_lib/game.py` -/

/-- Digit loop of `SudokuGame._solve_grid` (`sudoku_lib/game.py`): as
`libDig` but with no trace. -/
def gameDig (k : Grid → Bool × Grid) : Nat → Grid → Nat → Nat → Bool × Grid
  | 0, g, _, _ => (false, g)
  | d + 1, g, p, num =>
    if isSafe g (p / 9) (p % 9) num then
      let r := k (setCell g p num)
      if r.1 then r
      else gameDig k d (setCell r.2 p 0) p (num + 1)
    else gameDig k d g p (num + 1)

/-- `SudokuGame._solve_grid` (`sudoku_lib/game.py`): find the first empty
cell and run the digit loop; fuel as for `svAux`. -/
def gameAux : Nat → Grid → Bool × Grid
  | 0, g => (false, g)
  | fuel + 1, g =>
    match findEmpty g with
    | none => (true, g)
    | some p => gameDig (fun g' => gameAux fuel g') 9 g p 1

/-- `self._solve_grid(grid)` of `sudoku_lib/game.py`. -/
def gameSolveGrid (g : Grid) : Bool × Grid := gameAux 82 g

/-- The all-zero grid (`np.zeros((9, 9))`). -/
def zeroGrid : Grid := fun _ => 0

/-- `SudokuGame._fill_box(grid, row, col)` of `sudoku_lib/game.py`, with the
shuffled digit list passed as the parameter `nums`: write `nums[pos]` to cell
`(row + pos // 3, col + pos % 3)` for `pos = 0..8`. -/
def fillBox (g : Grid) (row col : Nat) (nums : List Nat) : Grid :=
  (List.range 9).foldl
    (fun acc t => setCell acc (9 * (row + t / 3) + (col + t % 3)) (nums.getD t 0)) g

/-- `SudokuGame._generate_solution` of `sudoku_lib/game.py` with the three
random shuffles as parameters: fill the three diagonal boxes, then run
`_solve_grid` — whose boolean return value the source discards, so the grid
is returned whether or not the backtracker completed it. -/
def generateSolution (n0 n1 n2 : List Nat) : Grid :=
  (gameSolveGrid (fillBox (fillBox (fillBox zeroGrid 0 0 n0) 3 3 n1) 6 6 n2)).2

/-- The `cells_to_remove` table of `SudokuGame.new_game`
(`sudoku_lib/game.py`), including `difficulty.lower()` and the
`.get(..., 40)` fallback for unrecognized labels. -/
def cellsToRemove (difficulty : String) : Nat :=
  if difficulty.toLower = "easy" then 30
  else if difficulty.toLower = "medium" then 40
  else if difficulty.toLower = "hard" then 50
  else 40

/-- `SudokuGame.new_game` of `sudoku_lib/game.py`, with the randomness (the
three diagonal box fills and the shuffled list of the 81 cell positions)
passed as parameters: generate a full solution, then blank the first
`cells_to_remove` shuffled positions. -/
def newGame (difficulty : String) (n0 n1 n2 : List Nat) (order : List Nat) : Grid :=
  (order.take (cellsToRemove difficulty)).foldl (fun acc p => setCell acc p 0)
    (generateSolution n0 n1 n2)

/-! ### The API validator of `sudoku_lib/api.py` -/

/-- One constructor per error message format of `validate_solution`
(`sudoku_lib/api.py`). -/
inductive VErr where
  /-- `"Grid is incomplete"`. -/
  | incomplete
  /-- `"Invalid row {i+1}"`. -/
  | badRow (i : Nat)
  /-- `"Invalid column {i+1}"`. -/
  | badCol (i : Nat)
  /-- `"Invalid 3x3 box at position ({i//3+1}, {j//3+1})"`. -/
  | badBox (i j : Nat)
deriving DecidableEq

/-- `validate_solution` of `sudoku_lib/api.py`: a grid containing `0` is
rejected at once as incomplete; otherwise rows, columns and boxes are checked
for nine distinct values (`len(set(row)) != 9` on a nine-cell slice is
exactly a duplicate, i.e. the failure of `Nodup`). -/
def validateSolution (g : Grid) : Bool × List VErr :=
  if hasZero g then (false, [VErr.incomplete])
  else
    let errs :=
      ((List.range 9).filterMap fun i =>
        if (rowVals g i).Nodup then none else some (VErr.badRow i)) ++
      ((List.range 9).filterMap fun i =>
        if (colVals g i).Nodup then none else some (VErr.badCol i)) ++
      ((List.range 9).filterMap fun b =>
        if (boxList g b).Nodup then none else some (VErr.badBox (b / 3) (b % 3)))
    (errs.isEmpty, errs)

/-! ### Specification-side predicates

`occursElsewhereIn` and `occursInGroup` are written from the specification's
wording (§4.1 and §8: "v occurs elsewhere in row r, column c, or box(r,c)",
"excluding the cell itself"), to be compared with the code's membership
scans. -/

/-- The value `v` occurs somewhere in row `r`, column `c` or the box of
`(r, c)` — the cell `(r, c)` itself allowed. -/
def occursInGroup (g : Grid) (r c v : Nat) : Prop :=
  (∃ j, j < 9 ∧ g (9 * r + j) = v) ∨ (∃ i, i < 9 ∧ g (9 * i + c) = v) ∨
    (∃ i j, i < 9 ∧ j < 9 ∧ i / 3 = r / 3 ∧ j / 3 = c / 3 ∧ g (9 * i + j) = v)

/-- The value `v` occurs in row `r`, column `c` or the box of `(r, c)` at
some cell other than `(r, c)` itself. -/
def occursElsewhereIn (g : Grid) (r c v : Nat) : Prop :=
  (∃ j, j < 9 ∧ j ≠ c ∧ g (9 * r + j) = v) ∨
    (∃ i, i < 9 ∧ i ≠ r ∧ g (9 * i + c) = v) ∨
    (∃ i j, i < 9 ∧ j < 9 ∧ i / 3 = r / 3 ∧ j / 3 = c / 3 ∧ ¬(i = r ∧ j = c) ∧
      g (9 * i + j) = v)

/-! ### Boolean checkers used to discharge hypotheses on concrete grids -/

/-- Boolean form of `sameGroup`. -/
def sameGroupB (p q : Nat) : Bool :=
  (p / 9 == q / 9) || (p % 9 == q % 9) || ((p / 27 == q / 27) && (p % 9 / 3 == q % 9 / 3))

/-- Boolean form of `inRange`. -/
def inRangeB (g : Grid) : Bool := (List.range 81).all fun p => g p < 10

/-- Boolean form of `noConflicts`. -/
def noConflictsB (g : Grid) : Bool :=
  (List.range 81).all fun p => (List.range 81).all fun q =>
    (p == q) || !(sameGroupB p q) || (g p == 0) || !(g p == g q)

/-! ### Concrete grids for counterexamples and witnesses -/

/-- A grid whose single filled cell `(0, 0)` holds `5`. -/
def fiveGrid : Grid := setCell zeroGrid 0 5

/-- A grid whose single filled cell `(0, 0)` holds `7`. -/
def sevenGrid : Grid := setCell zeroGrid 0 7

/-- A consistent partial grid with no valid completion: row 0 holds
`1..8` followed by an empty cell, and `9` sits at `(1, 8)`, blocking the only
digit that could finish row 0. -/
def noCompGrid : Grid := fun p => if p < 8 then p + 1 else if p = 17 then 9 else 0

/-- `demoGrid` with cell `(0, 8)` erased and cell `(1, 8)` overwritten with
`9`: the single empty cell has no admissible digit, so both solvers fail
immediately on this grid. -/
def blockedGrid : Grid := setCell (setCell demoGrid 8 0) 17 9

/-! ### Counting cells -/

/-- Number of empty cells of the grid, the termination measure of the
`_find_empty`-driven recursions. -/
def zerosCount (g : Grid) : Nat := (List.range 81).countP fun p => g p == 0

/-- Number of filled cells of the grid (`np.count_nonzero`). -/
def filledCount (g : Grid) : Nat := (List.range 81).countP fun p => g p != 0

/-- The grid `_generate_solution` hands to `_solve_grid`: the three diagonal
boxes filled from the three shuffles, everything else still `0`. -/
def diagGrid (n0 n1 n2 : List Nat) : Grid :=
  fillBox (fillBox (fillBox zeroGrid 0 0 n0) 3 3 n1) 6 6 n2

/-! ### Basic lemmas about `setCell` and groups -/

theorem setCell_same (g : Grid) (p v : Nat) : setCell g p v p = v := by
  simp [setCell]

theorem setCell_other (g : Grid) (p v q : Nat) (h : q ≠ p) : setCell g p v q = g q := by
  simp [setCell, h]

theorem setCell_setCell (g : Grid) (p v w : Nat) :
    setCell (setCell g p v) p w = setCell g p w := by
  funext q; by_cases h : q = p <;> simp [setCell, h]

theorem setCell_zero_eq (g : Grid) (p : Nat) (h : g p = 0) : setCell g p 0 = g := by
  funext q
  by_cases hq : q = p
  · subst hq; simp [setCell, h]
  · simp [setCell, hq]

theorem sameGroup_symm {p q : Nat} (h : sameGroup p q) : sameGroup q p := by
  rcases h with h | h | h
  · exact Or.inl h.symm
  · exact Or.inr (Or.inl h.symm)
  · exact Or.inr (Or.inr ⟨h.1.symm, h.2.symm⟩)

theorem extendsTo_refl (g : Grid) : extendsTo g g := fun _ _ => rfl

theorem extendsTo_trans {g1 g2 g3 : Grid} (h12 : extendsTo g1 g2) (h23 : extendsTo g2 g3) :
    extendsTo g1 g3 := by
  intro p hp
  have h2 := h12 p hp
  have : g2 p ≠ 0 := by rw [h2]; exact hp
  rw [h23 p this, h2]

theorem extendsTo_setCell (g : Grid) (p v : Nat) (h : g p = 0) :
    extendsTo g (setCell g p v) := by
  intro q hq
  have : q ≠ p := fun e => hq (e ▸ h)
  exact setCell_other g p v q this

/-! ### Bridging the boolean membership scans to propositions -/

theorem hasVal_iff (l : List Nat) (v : Nat) : hasVal l v = true ↔ v ∈ l := by
  unfold hasVal
  rw [List.any_eq_true]
  constructor
  · rintro ⟨x, hx, he⟩
    rw [beq_iff_eq] at he
    exact he ▸ hx
  · intro hv
    exact ⟨v, hv, beq_self_eq_true v⟩

theorem mem_rowVals_iff (g : Grid) (r v : Nat) :
    v ∈ rowVals g r ↔ ∃ j, j < 9 ∧ g (9 * r + j) = v := by
  unfold rowVals
  rw [List.mem_map]
  constructor
  · rintro ⟨j, hj, he⟩; exact ⟨j, List.mem_range.1 hj, he⟩
  · rintro ⟨j, hj, he⟩; exact ⟨j, List.mem_range.2 hj, he⟩

theorem mem_colVals_iff (g : Grid) (c v : Nat) :
    v ∈ colVals g c ↔ ∃ i, i < 9 ∧ g (9 * i + c) = v := by
  unfold colVals
  rw [List.mem_map]
  constructor
  · rintro ⟨i, hi, he⟩; exact ⟨i, List.mem_range.1 hi, he⟩
  · rintro ⟨i, hi, he⟩; exact ⟨i, List.mem_range.2 hi, he⟩

theorem mem_boxVals_iff (g : Grid) (r c v : Nat) :
    v ∈ boxVals g r c ↔
      ∃ t, t < 9 ∧ g (9 * (3 * (r / 3) + t / 3) + (3 * (c / 3) + t % 3)) = v := by
  unfold boxVals
  rw [List.mem_map]
  constructor
  · rintro ⟨t, ht, he⟩; exact ⟨t, List.mem_range.1 ht, he⟩
  · rintro ⟨t, ht, he⟩; exact ⟨t, List.mem_range.2 ht, he⟩

/-- A safe placement excludes the digit from every cell of the placement's
row, column and box. -/
theorem isSafe_group {g : Grid} {p num : Nat} (_hp : p < 81)
    (hs : isSafe g (p / 9) (p % 9) num = true) :
    ∀ q, q < 81 → sameGroup p q → g q ≠ num := by
  intro q hq hgrp
  unfold isSafe at hs
  by_cases hrow : hasVal (rowVals g (p / 9)) num
  · simp [hrow] at hs
  by_cases hcol : hasVal (colVals g (p % 9)) num
  · simp [hrow, hcol] at hs
  by_cases hbox : hasVal (boxVals g (p / 9) (p % 9)) num
  · simp [hrow, hcol, hbox] at hs
  intro he
  rcases hgrp with hg | hg | hg
  · refine hrow ((hasVal_iff _ _).2 ((mem_rowVals_iff _ _ _).2 ⟨q % 9, ?_, ?_⟩))
    · omega
    · unfold sameRow at hg; rw [show 9 * (p / 9) + q % 9 = q by omega]; exact he
  · refine hcol ((hasVal_iff _ _).2 ((mem_colVals_iff _ _ _).2 ⟨q / 9, ?_, ?_⟩))
    · omega
    · unfold sameCol at hg; rw [show 9 * (q / 9) + p % 9 = q by omega]; exact he
  · refine hbox ((hasVal_iff _ _).2 ((mem_boxVals_iff _ _ _ _).2 ⟨q / 9 % 3 * 3 + q % 9 % 3, ?_, ?_⟩))
    · omega
    · unfold sameBox at hg
      rw [show 9 * (3 * (p / 9 / 3) + (q / 9 % 3 * 3 + q % 9 % 3) / 3) +
            (3 * (p % 9 / 3) + (q / 9 % 3 * 3 + q % 9 % 3) % 3) = q by omega]
      exact he

/-- Placing a safe digit at an empty cell keeps the grid conflict-free. -/
theorem noConflicts_setCell {g : Grid} {p num : Nat} (hnc : noConflicts g)
    (hz : g p = 0) (hp : p < 81) (hs : isSafe g (p / 9) (p % 9) num = true)
    (_hnum : num ≠ 0) : noConflicts (setCell g p num) := by
  intro a b ha hb hne hgrp hnz
  by_cases hap : a = p
  · have hbp : b ≠ p := fun e => hne (hap.trans e.symm)
    rw [hap] at hgrp ⊢
    rw [setCell_same, setCell_other _ _ _ _ hbp]
    exact fun e => isSafe_group hp hs b hb hgrp e.symm
  · rw [setCell_other _ _ _ _ hap] at hnz ⊢
    by_cases hbp : b = p
    · subst hbp
      rw [setCell_same]
      exact isSafe_group hp hs a ha (sameGroup_symm hgrp)
    · rw [setCell_other _ _ _ _ hbp]
      exact hnc a b ha hb hne hgrp hnz

/-- Placing a digit at most `9` keeps the grid in range. -/
theorem inRange_setCell {g : Grid} {p num : Nat} (hr : inRange g) (hnum : num ≤ 9) :
    inRange (setCell g p num) := by
  intro q hq
  by_cases hqp : q = p
  · subst hqp; rw [setCell_same]; exact hnum
  · rw [setCell_other _ _ _ _ hqp]; exact hr q hq

/-! ### The backtracker of `sudoku_lib/solver.py`: restore, extension, soundness -/

/-- Failure of the digit loop restores the grid: every trial placement is
unwound to `0`. -/
theorem libDig_restore (k : Grid → List Step → Bool × Grid × List Step)
    (hk : ∀ g st, (k g st).1 = false → (k g st).2.1 = g) :
    ∀ d g pos num st, g pos = 0 →
      (libDig k d g pos num st).1 = false → (libDig k d g pos num st).2.1 = g := by
  intro d
  induction d with
  | zero => intro g pos num st _ _; rfl
  | succ d ih =>
    intro g pos num st hz hf
    rw [libDig] at hf ⊢
    by_cases hsafe : isSafe g (pos / 9) (pos % 9) num = true
    · rw [if_pos hsafe] at hf ⊢
      by_cases hr : (k (setCell g pos num) (st ++ [Step.tryS (pos / 9) (pos % 9) num])).1 = true
      · rw [if_pos hr] at hf
        rw [hf] at hr
        exact absurd hr (by simp)
      · rw [if_neg hr] at hf ⊢
        have hg' := hk (setCell g pos num) (st ++ [Step.tryS (pos / 9) (pos % 9) num])
          (by simpa using hr)
        rw [hg', setCell_setCell, setCell_zero_eq g pos hz] at hf ⊢
        exact ih g pos (num + 1) _ hz hf
    · rw [if_neg hsafe] at hf ⊢
      exact ih g pos (num + 1) st hz hf

/-- Failure of `_solve_step_by_step` restores the grid to its argument. -/
theorem libAux_restore :
    ∀ fuel g pos st, (libAux fuel g pos st).1 = false → (libAux fuel g pos st).2.1 = g := by
  intro fuel
  induction fuel with
  | zero => intro g pos st hf; simp [libAux] at hf
  | succ fuel ih =>
    intro g pos st hf
    rw [libAux] at hf ⊢
    by_cases hnz : (g pos != 0) = true
    · rw [if_pos hnz] at hf ⊢
      exact ih g (pos + 1) st hf
    · rw [if_neg hnz] at hf ⊢
      have hz : g pos = 0 := by simpa using hnz
      exact libDig_restore _ (fun g' st' => ih g' (pos + 1) st') 9 g pos 1 st hz hf

/-- The digit loop only writes to the empty scan cell: its result extends the
input grid. -/
theorem libDig_extendsTo (k : Grid → List Step → Bool × Grid × List Step)
    (hk : ∀ g st, (k g st).1 = false → (k g st).2.1 = g)
    (he : ∀ g st, extendsTo g (k g st).2.1) :
    ∀ d g pos num st, g pos = 0 → extendsTo g (libDig k d g pos num st).2.1 := by
  intro d
  induction d with
  | zero => intro g pos num st _; exact extendsTo_refl g
  | succ d ih =>
    intro g pos num st hz
    rw [libDig]
    by_cases hsafe : isSafe g (pos / 9) (pos % 9) num = true
    · rw [if_pos hsafe]
      by_cases hr : (k (setCell g pos num) (st ++ [Step.tryS (pos / 9) (pos % 9) num])).1 = true
      · rw [if_pos hr]
        exact extendsTo_trans (extendsTo_setCell g pos num hz)
          (he (setCell g pos num) (st ++ [Step.tryS (pos / 9) (pos % 9) num]))
      · rw [if_neg hr]
        have hg' := hk (setCell g pos num) (st ++ [Step.tryS (pos / 9) (pos % 9) num])
          (by simpa using hr)
        rw [hg', setCell_setCell, setCell_zero_eq g pos hz]
        exact ih g pos (num + 1) _ hz
    · rw [if_neg hsafe]
      exact ih g pos (num + 1) st hz

/-- `_solve_step_by_step` only ever writes to cells that were `0`: its result
extends the input grid, on success and on failure alike. -/
theorem libAux_extendsTo :
    ∀ fuel g pos st, extendsTo g (libAux fuel g pos st).2.1 := by
  intro fuel
  induction fuel with
  | zero => intro g pos st; exact extendsTo_refl g
  | succ fuel ih =>
    intro g pos st
    rw [libAux]
    by_cases hnz : (g pos != 0) = true
    · rw [if_pos hnz]; exact ih g (pos + 1) st
    · rw [if_neg hnz]
      have hz : g pos = 0 := by simpa using hnz
      exact libDig_extendsTo _ (fun g' st' => libAux_restore fuel g' (pos + 1) st')
        (fun g' st' => ih g' (pos + 1) st') 9 g pos 1 st hz

/-- Soundness of the digit loop, parametric in the behaviour of the
continuation `k` on grids whose prefix up to `pos + 1` is filled. -/
theorem libDig_sound (k : Grid → List Step → Bool × Grid × List Step) (pos : Nat)
    (hk : ∀ g st, (k g st).1 = false → (k g st).2.1 = g)
    (hs : ∀ g st, prefixFilled g (pos + 1) → inRange g → noConflicts g →
      (k g st).1 = true →
      complete (k g st).2.1 ∧ inRange (k g st).2.1 ∧ noConflicts (k g st).2.1) :
    ∀ d num g st, 1 ≤ num → num + d = 10 → g pos = 0 → pos < 81 →
      prefixFilled g pos → inRange g → noConflicts g →
      (libDig k d g pos num st).1 = true →
      complete (libDig k d g pos num st).2.1 ∧ inRange (libDig k d g pos num st).2.1 ∧
        noConflicts (libDig k d g pos num st).2.1 := by
  intro d
  induction d with
  | zero => intro num g st _ _ _ _ _ _ _ ht; simp [libDig] at ht
  | succ d ih =>
    intro num g st hn1 hnd hz hlt hpre hr hnc ht
    rw [libDig] at ht ⊢
    by_cases hsafe : isSafe g (pos / 9) (pos % 9) num = true
    · rw [if_pos hsafe] at ht ⊢
      by_cases hrt : (k (setCell g pos num) (st ++ [Step.tryS (pos / 9) (pos % 9) num])).1 = true
      · rw [if_pos hrt] at ht ⊢
        have hnum0 : num ≠ 0 := by omega
        have hnum9 : num ≤ 9 := by omega
        refine hs (setCell g pos num) (st ++ [Step.tryS (pos / 9) (pos % 9) num]) ?_ ?_ ?_ hrt
        · intro q hq
          by_cases hqp : q = pos
          · subst hqp; rw [setCell_same]; exact hnum0
          · rw [setCell_other _ _ _ _ hqp]; exact hpre q (by omega)
        · exact inRange_setCell hr hnum9
        · exact noConflicts_setCell hnc hz hlt hsafe hnum0
      · rw [if_neg hrt] at ht ⊢
        have hg' := hk (setCell g pos num) (st ++ [Step.tryS (pos / 9) (pos % 9) num])
          (by simpa using hrt)
        rw [hg', setCell_setCell, setCell_zero_eq g pos hz] at ht ⊢
        exact ih (num + 1) g _ (by omega) (by omega) hz hlt hpre hr hnc ht
    · rw [if_neg hsafe] at ht ⊢
      exact ih (num + 1) g st (by omega) (by omega) hz hlt hpre hr hnc ht

/-- Soundness of `_solve_step_by_step`: from a consistent in-range grid whose
prefix is filled, success yields a complete, in-range, conflict-free grid. -/
theorem libAux_sound :
    ∀ fuel g pos st, pos + fuel = 81 → prefixFilled g pos → inRange g → noConflicts g →
      (libAux fuel g pos st).1 = true →
      complete (libAux fuel g pos st).2.1 ∧ inRange (libAux fuel g pos st).2.1 ∧
        noConflicts (libAux fuel g pos st).2.1 := by
  intro fuel
  induction fuel with
  | zero =>
    intro g pos st hgl hpre hr hnc _
    have : pos = 81 := by omega
    subst this
    exact ⟨fun p hp => hpre p hp, hr, hnc⟩
  | succ fuel ih =>
    intro g pos st hgl hpre hr hnc ht
    rw [libAux] at ht ⊢
    by_cases hnz : (g pos != 0) = true
    · rw [if_pos hnz] at ht ⊢
      have hz : g pos ≠ 0 := by simpa using hnz
      refine ih g (pos + 1) st (by omega) ?_ hr hnc ht
      intro q hq
      by_cases hqp : q = pos
      · subst hqp; exact hz
      · exact hpre q (by omega)
    · rw [if_neg hnz] at ht ⊢
      have hz : g pos = 0 := by simpa using hnz
      refine libDig_sound _ pos (fun g' st' => libAux_restore fuel g' (pos + 1) st')
        (fun g' st' => ih g' (pos + 1) st' (by omega)) 9 1 g st (by omega) (by omega)
        hz (by omega) hpre hr hnc ht

/-! ### Nine distinct in-range values are a permutation of `1..9` -/

/-- A list of nine distinct values from `{1, ..., 9}` contains every digit
`1..9` exactly once. -/
theorem count_eq_one_of_nine (l : List Nat) (hlen : l.length = 9) (hnd : l.Nodup)
    (hmem : ∀ x ∈ l, 1 ≤ x ∧ x ≤ 9) : ∀ v, 1 ≤ v → v ≤ 9 → l.count v = 1 := by
  intro v hv1 hv9
  have hsub : l.toFinset ⊆ Finset.Icc 1 9 := by
    intro x hx
    rw [List.mem_toFinset] at hx
    rw [Finset.mem_Icc]
    exact hmem x hx
  have hcard : (Finset.Icc 1 9).card ≤ l.toFinset.card := by
    rw [List.toFinset_card_of_nodup hnd, hlen, Nat.card_Icc]
  have heq : l.toFinset = Finset.Icc 1 9 := Finset.eq_of_subset_of_card_le hsub hcard
  have hvmem : v ∈ l := by
    rw [← List.mem_toFinset, heq, Finset.mem_Icc]
    exact ⟨hv1, hv9⟩
  exact List.count_eq_one_of_mem hnd hvmem

/-- Positions of row `i` are pairwise in the same row. -/
theorem rowVals_valid {g : Grid} (hc : complete g) (hr : inRange g) (hnc : noConflicts g)
    {i : Nat} (hi : i < 9) : ∀ v, 1 ≤ v → v ≤ 9 → (rowVals g i).count v = 1 := by
  have hlen : (rowVals g i).length = 9 := by simp [rowVals]
  have hnd : (rowVals g i).Nodup := by
    refine List.Nodup.map_on ?_ (List.nodup_range 9)
    intro j1 h1 j2 h2 he
    rw [List.mem_range] at h1 h2
    by_contra hne
    have hp1 : 9 * i + j1 < 81 := by omega
    have hp2 : 9 * i + j2 < 81 := by omega
    have hpn : 9 * i + j1 ≠ 9 * i + j2 := by omega
    have hsg : sameGroup (9 * i + j1) (9 * i + j2) := Or.inl (by unfold sameRow; omega)
    exact hnc _ _ hp1 hp2 hpn hsg (hc _ hp1) he
  have hmem : ∀ x ∈ rowVals g i, 1 ≤ x ∧ x ≤ 9 := by
    intro x hx
    rw [mem_rowVals_iff] at hx
    obtain ⟨j, hj, he⟩ := hx
    have hp : 9 * i + j < 81 := by omega
    have := hc _ hp
    have := hr _ hp
    omega
  exact count_eq_one_of_nine _ hlen hnd hmem

/-- Column analogue of `rowVals_valid`. -/
theorem colVals_valid {g : Grid} (hc : complete g) (hr : inRange g) (hnc : noConflicts g)
    {i : Nat} (hi : i < 9) : ∀ v, 1 ≤ v → v ≤ 9 → (colVals g i).count v = 1 := by
  have hlen : (colVals g i).length = 9 := by simp [colVals]
  have hnd : (colVals g i).Nodup := by
    refine List.Nodup.map_on ?_ (List.nodup_range 9)
    intro j1 h1 j2 h2 he
    rw [List.mem_range] at h1 h2
    by_contra hne
    have hp1 : 9 * j1 + i < 81 := by omega
    have hp2 : 9 * j2 + i < 81 := by omega
    have hpn : 9 * j1 + i ≠ 9 * j2 + i := by omega
    have hsg : sameGroup (9 * j1 + i) (9 * j2 + i) := Or.inr (Or.inl (by unfold sameCol; omega))
    exact hnc _ _ hp1 hp2 hpn hsg (hc _ hp1) he
  have hmem : ∀ x ∈ colVals g i, 1 ≤ x ∧ x ≤ 9 := by
    intro x hx
    rw [mem_colVals_iff] at hx
    obtain ⟨j, hj, he⟩ := hx
    have hp : 9 * j + i < 81 := by omega
    have := hc _ hp
    have := hr _ hp
    omega
  exact count_eq_one_of_nine _ hlen hnd hmem

/-- Box analogue of `rowVals_valid`, for box index `b`. -/
theorem boxList_valid {g : Grid} (hc : complete g) (hr : inRange g) (hnc : noConflicts g)
    {b : Nat} (hb : b < 9) : ∀ v, 1 ≤ v → v ≤ 9 → (boxList g b).count v = 1 := by
  have hlen : (boxList g b).length = 9 := by simp [boxList]
  have hpos : ∀ t, t < 9 → 9 * (3 * (b / 3) + t / 3) + (3 * (b % 3) + t % 3) < 81 := by
    intro t ht; omega
  have hnd : (boxList g b).Nodup := by
    refine List.Nodup.map_on ?_ (List.nodup_range 9)
    intro t1 h1 t2 h2 he
    rw [List.mem_range] at h1 h2
    by_contra hne
    have hp1 := hpos t1 h1
    have hp2 := hpos t2 h2
    have hpn : 9 * (3 * (b / 3) + t1 / 3) + (3 * (b % 3) + t1 % 3) ≠
        9 * (3 * (b / 3) + t2 / 3) + (3 * (b % 3) + t2 % 3) := by omega
    have hsg : sameGroup (9 * (3 * (b / 3) + t1 / 3) + (3 * (b % 3) + t1 % 3))
        (9 * (3 * (b / 3) + t2 / 3) + (3 * (b % 3) + t2 % 3)) := by
      exact Or.inr (Or.inr ⟨by omega, by omega⟩)
    exact hnc _ _ hp1 hp2 hpn hsg (hc _ hp1) he
  have hmem : ∀ x ∈ boxList g b, 1 ≤ x ∧ x ≤ 9 := by
    intro x hx
    unfold boxList at hx
    rw [List.mem_map] at hx
    obtain ⟨t, ht, he⟩ := hx
    rw [List.mem_range] at ht
    have hp := hpos t ht
    have := hc _ hp
    have := hr _ hp
    omega
  exact count_eq_one_of_nine _ hlen hnd hmem

/-- A complete, in-range, conflict-free grid has every row, column and box a
permutation of `1..9`. -/
theorem validComplete_of {g : Grid} (hc : complete g) (hr : inRange g)
    (hnc : noConflicts g) : validComplete g := by
  intro i hi v hv1 hv9
  exact ⟨rowVals_valid hc hr hnc hi v hv1 hv9, colVals_valid hc hr hnc hi v hv1 hv9,
    boxList_valid hc hr hnc hi v hv1 hv9⟩

/-! ### Fresh sessions and hypothesis checkers -/

/-- A fresh session has an empty cache, so `solve` runs the backtracker and
caches the solved grid on success. -/
theorem libSolveFresh_eq (g : Grid) :
    libSolveFresh g =
      if (solveStepByStep g).1 then
        (true, (solveStepByStep g).2.2,
          { grid := (solveStepByStep g).2.1, orig := g, used := [],
            puzzles := [(g, (solveStepByStep g).2.1)] })
      else
        (false, (solveStepByStep g).2.2,
          { grid := (solveStepByStep g).2.1, orig := g, used := [], puzzles := [] }) := rfl

theorem sameGroupB_iff (p q : Nat) : sameGroupB p q = true ↔ sameGroup p q := by
  unfold sameGroupB sameGroup sameRow sameCol sameBox
  simp [Bool.or_eq_true, Bool.and_eq_true, beq_iff_eq]
  tauto

/-- The executable checkers certify `validPartial` on concrete grids. -/
theorem validPartial_of_b (g : Grid) (h1 : inRangeB g = true) (h2 : noConflictsB g = true) :
    validPartial g := by
  constructor
  · intro p hp
    have := (List.all_eq_true.1 h1) p (List.mem_range.2 hp)
    simp at this
    omega
  · intro p q hp hq hne hsg hnz
    have hq' := (List.all_eq_true.1 ((List.all_eq_true.1 h2) p (List.mem_range.2 hp))) q
      (List.mem_range.2 hq)
    have hsb : sameGroupB p q = true := (sameGroupB_iff p q).2 hsg
    simp [hsb, hne, hnz] at hq'
    exact hq'

/-- Soundness of a fresh `solve` call of `sudoku_lib/solver.py`: on a valid
partial grid, success yields a complete grid that extends the input and whose
rows, columns and boxes are permutations of `1..9`. -/
theorem libSolveFresh_sound {g : Grid} (hv : validPartial g)
    (hs : (libSolveFresh g).1 = true) :
    complete (libSolveFresh g).2.2.grid ∧ validComplete (libSolveFresh g).2.2.grid ∧
      extendsTo g (libSolveFresh g).2.2.grid := by
  rw [libSolveFresh_eq] at hs ⊢
  by_cases h : (solveStepByStep g).1 = true
  · rw [if_pos h] at hs ⊢
    have hsound := libAux_sound 81 g 0 [] (by omega) (fun q hq => absurd hq (by omega))
      hv.1 hv.2 h
    have hext := libAux_extendsTo 81 g 0 []
    exact ⟨hsound.1, validComplete_of hsound.1 hsound.2.1 hsound.2.2, hext⟩
  · rw [if_neg h] at hs
    simp at hs

/-! ### Claim C1 -/

/-- C1 (amended): for every input grid that is a valid partial grid (values
in `[0, 9]`, no given repeated in any row, column or box), if the `solve` of
`sudoku_lib/solver.py` (fresh session) returns success, the resulting grid
has no empty cell and every row, column and box contains each digit `1..9`
exactly once. -/
theorem claim_C1_amended (g : Grid) (hv : validPartial g)
    (hs : (libSolveFresh g).1 = true) :
    complete (libSolveFresh g).2.2.grid ∧ validComplete (libSolveFresh g).2.2.grid :=
  ⟨(libSolveFresh_sound hv hs).1, (libSolveFresh_sound hv hs).2.1⟩

/-- C1 (counterexample): on the all-ones grid, `solve` returns success, yet
row 0 of the resulting grid is not a permutation of `1..9` (the digit `1`
occurs nine times), refuting the claim as stated over all input grids. -/
theorem claim_C1_counterexample :
    (libSolveFresh allOnes).1 = true ∧
      (rowVals (libSolveFresh allOnes).2.2.grid 0).count 1 = 9 := by decide

/-- C1 (witness): the amended claim applied to the concrete valid puzzle
`demoHole`. -/
theorem claim_C1_witness :
    validPartial demoHole ∧ (libSolveFresh demoHole).1 = true ∧
      complete (libSolveFresh demoHole).2.2.grid ∧
        validComplete (libSolveFresh demoHole).2.2.grid := by
  have hv : validPartial demoHole := validPartial_of_b _ (by decide) (by decide)
  have hs : (libSolveFresh demoHole).1 = true := by decide
  exact ⟨hv, hs, claim_C1_amended demoHole hv hs⟩

/-- `SudokuSolver.solve` of `sudoku_solver.py` restores the pre-solve grid on
failure (`self.grid = original_grid`). -/
theorem svSolve_restore (s : Session) (hf : (svSolve s).1 = false) :
    (svSolve s).2.2.grid = s.grid := by
  cases hl : lookupPuzzle s.puzzles s.orig with
  | some sol => simp [svSolve, hl] at hf
  | none =>
    simp only [svSolve, hl] at hf ⊢
    by_cases hz : hasZero (logicLoop 82 s.grid []).1 = true
    · rw [if_pos hz] at hf ⊢
      by_cases hb : (svBacktrack (logicLoop 82 s.grid []).1
          ((logicLoop 82 s.grid []).2 ++ [Step.useBacktrack])).1 = true
      · rw [if_pos hb] at hf; simp at hf
      · rw [if_neg hb]
    · rw [if_neg hz] at hf; simp at hf

/-- `noCompGrid` admits no valid completion: any completion must put `9` at
`(0, 8)`, clashing with the given `9` at `(1, 8)` in column 8. -/
theorem noCompGrid_noSolution : ¬ ∃ g', solutionOf noCompGrid g' := by
  rintro ⟨g', hext, hcomp, hvc⟩
  have e0 : g' 0 = 1 := hext 0 (by decide)
  have e1 : g' 1 = 2 := hext 1 (by decide)
  have e2 : g' 2 = 3 := hext 2 (by decide)
  have e3 : g' 3 = 4 := hext 3 (by decide)
  have e4 : g' 4 = 5 := hext 4 (by decide)
  have e5 : g' 5 = 6 := hext 5 (by decide)
  have e6 : g' 6 = 7 := hext 6 (by decide)
  have e7 : g' 7 = 8 := hext 7 (by decide)
  have e17 : g' 17 = 9 := hext 17 (by decide)
  have h8 : g' 8 = 9 := by
    have hcount := (hvc 0 (by omega) 9 (by omega) (by omega)).1
    have hrow : rowVals g' 0 = [g' 0, g' 1, g' 2, g' 3, g' 4, g' 5, g' 6, g' 7, g' 8] := rfl
    by_cases hg : g' 8 = 9
    · exact hg
    · rw [hrow, e0, e1, e2, e3, e4, e5, e6, e7] at hcount
      simp [List.count_cons, hg] at hcount
  have hcol := (hvc 8 (by omega) 9 (by omega) (by omega)).2.1
  have hcoll : colVals g' 8 =
      [g' 8, g' 17, g' 26, g' 35, g' 44, g' 53, g' 62, g' 71, g' 80] := rfl
  rw [hcoll, h8, e17] at hcol
  simp [List.count_cons] at hcol

/-- C4 (amended): for every valid partial grid with no valid completion, the
backtracking `solve` of `sudoku_lib/solver.py` returns `success = false`; and
for both solvers, whenever `solve` returns `success = false` the working grid
after the call equals the pre-solve grid. -/
theorem claim_C4_amended :
    (∀ g, validPartial g → (¬ ∃ g', solutionOf g g') → (libSolveFresh g).1 = false) ∧
    (∀ g, (libSolveFresh g).1 = false → (libSolveFresh g).2.2.grid = g) ∧
    (∀ s, (svSolve s).1 = false → (svSolve s).2.2.grid = s.grid) := by
  refine ⟨?_, ?_, fun s => svSolve_restore s⟩
  · intro g hv hnc
    by_contra h
    have hs : (libSolveFresh g).1 = true := by
      cases hb : (libSolveFresh g).1
      · exact absurd hb h
      · rfl
    obtain ⟨hcomp, hvc, hext⟩ := libSolveFresh_sound hv hs
    exact hnc ⟨(libSolveFresh g).2.2.grid, hext, hcomp, hvc⟩
  · intro g hf
    rw [libSolveFresh_eq] at hf ⊢
    by_cases h : (solveStepByStep g).1 = true
    · rw [if_pos h] at hf; simp at hf
    · rw [if_neg h] at hf ⊢
      exact libAux_restore 81 g 0 []
        (by cases hb : (solveStepByStep g).1 with
            | true => exact absurd hb h
            | false => exact hb)

/-- C4 (counterexample): the all-ones grid has no valid completion, yet
`solve` returns `success = true` on it, refuting the claim as stated over all
input grids. -/
theorem claim_C4_counterexample :
    (¬ ∃ g', solutionOf allOnes g') ∧ (libSolveFresh allOnes).1 = true := by
  constructor
  · rintro ⟨g', hext, hcomp, hvc⟩
    have e : ∀ p, g' p = 1 := fun p => hext p one_ne_zero
    have hcount := (hvc 0 (by omega) 1 (by omega) (by omega)).1
    have hrow : rowVals g' 0 = [g' 0, g' 1, g' 2, g' 3, g' 4, g' 5, g' 6, g' 7, g' 8] := rfl
    rw [hrow, e 0, e 1, e 2, e 3, e 4, e 5, e 6, e 7, e 8] at hcount
    simp [List.count_cons] at hcount
  · decide

set_option maxRecDepth 40000 in
/-- C4 (witness): the amended claim applied at concrete inputs — the valid
but uncompletable `noCompGrid` for the first two parts and a failing
`sudoku_solver.py` session on `blockedGrid` for the third. -/
theorem claim_C4_witness :
    validPartial noCompGrid ∧ (¬ ∃ g', solutionOf noCompGrid g') ∧
      (libSolveFresh noCompGrid).1 = false ∧
      (libSolveFresh noCompGrid).2.2.grid = noCompGrid ∧
      (svSolve (initSession blockedGrid)).1 = false ∧
      (svSolve (initSession blockedGrid)).2.2.grid = blockedGrid := by
  have hv : validPartial noCompGrid := validPartial_of_b _ (by decide) (by decide)
  have hnc := noCompGrid_noSolution
  have h1 : (libSolveFresh noCompGrid).1 = false := claim_C4_amended.1 noCompGrid hv hnc
  have hsv : (svSolve (initSession blockedGrid)).1 = false := by decide
  exact ⟨hv, hnc, h1, claim_C4_amended.2.1 noCompGrid h1, hsv,
    claim_C4_amended.2.2 (initSession blockedGrid) hsv⟩

theorem gridEqB_refl (g : Grid) : gridEqB g g = true := by
  unfold gridEqB
  rw [List.all_eq_true]
  intro p _
  simp

/-- C5 (amended): a repeated `solve` call on the same session returns the
same success flag and a byte-identical grid; its trace, however, is the
one-line cached-solution trace whenever the first call succeeded (so trace
lengths agree only when the first trace has length 1), and is identical to
the first trace when the first call failed. -/
theorem claim_C5_amended (g : Grid) :
    (libSolve (libSolveFresh g).2.2).2.2.grid = (libSolveFresh g).2.2.grid ∧
    (libSolve (libSolveFresh g).2.2).1 = (libSolveFresh g).1 ∧
    ((libSolveFresh g).1 = true → (libSolve (libSolveFresh g).2.2).2.1 = [Step.cachedS]) ∧
    ((libSolveFresh g).1 = false →
      (libSolve (libSolveFresh g).2.2).2.1 = (libSolveFresh g).2.1) := by
  rw [libSolveFresh_eq]
  by_cases h : (solveStepByStep g).1 = true
  · rw [if_pos h]
    have hc : libSolve
        (Session.mk (solveStepByStep g).2.1 g [] [(g, (solveStepByStep g).2.1)]) =
        (true, [Step.cachedS],
          Session.mk (solveStepByStep g).2.1 g [] [(g, (solveStepByStep g).2.1)]) := by
      have hfind : List.find? (fun e => gridEqB e.1 g)
          [(g, (solveStepByStep g).2.1)] = some (g, (solveStepByStep g).2.1) := by
        simp only [List.find?, gridEqB_refl]
      unfold libSolve lookupPuzzle
      dsimp only
      rw [hfind]
      rfl
    rw [hc]
    exact ⟨rfl, rfl, fun _ => rfl, fun hf => absurd hf (by simp)⟩
  · rw [if_neg h]
    have hf : (solveStepByStep g).1 = false := by
      cases hb : (solveStepByStep g).1
      · rfl
      · exact absurd hb h
    have hrest : (solveStepByStep g).2.1 = g := libAux_restore 81 g 0 [] hf
    have hsecond : libSolve (Session.mk (solveStepByStep g).2.1 g [] []) =
        (false, (solveStepByStep g).2.2,
          Session.mk (solveStepByStep g).2.1 g [] []) := by
      unfold libSolve lookupPuzzle
      dsimp only
      rw [hrest, if_neg h, hrest]
      rfl
    rw [hsecond]
    exact ⟨rfl, rfl, fun ht => absurd ht (by simp), fun _ => rfl⟩

/-- C5 (counterexample): on the already-complete `demoGrid`, the first
`solve` call returns a trace of length 0, while the repeated call returns the
cached-solution trace of length 1 — the trace lengths of repeated calls
differ, refuting the claim as stated. -/
theorem claim_C5_counterexample :
    (libSolveFresh demoGrid).1 = true ∧
      (libSolve (libSolveFresh demoGrid).2.2).1 = true ∧
      (libSolveFresh demoGrid).2.1.length = 0 ∧
      (libSolve (libSolveFresh demoGrid).2.2).2.1.length = 1 := by decide

/-- C5 (witness): the amended claim applied to the concrete grid
`demoGrid`. -/
theorem claim_C5_witness :
    (libSolveFresh demoGrid).1 = true ∧
      (libSolve (libSolveFresh demoGrid).2.2).2.2.grid = (libSolveFresh demoGrid).2.2.grid ∧
      (libSolve (libSolveFresh demoGrid).2.2).2.1 = [Step.cachedS] := by
  have h := claim_C5_amended demoGrid
  exact ⟨by decide, h.1, h.2.2.1 (by decide)⟩

theorem findEmpty_zero {g : Grid} {p : Nat} (h : findEmpty g = some p) : g p = 0 := by
  have := List.find?_some h
  simpa using this

theorem findEmpty_lt {g : Grid} {p : Nat} (h : findEmpty g = some p) : p < 81 := by
  have := List.mem_of_find?_eq_some h
  simpa using this

/-- Failure of the `sudoku_solver.py` digit loop restores the grid. -/
theorem svDig_restore (k : Grid → List Step → Bool × Grid × List Step)
    (hk : ∀ g st, (k g st).1 = false → (k g st).2.1 = g) :
    ∀ d g p num st, g p = 0 →
      (svDig k d g p num st).1 = false → (svDig k d g p num st).2.1 = g := by
  intro d
  induction d with
  | zero => intro g p num st _ _; rfl
  | succ d ih =>
    intro g p num st hz hf
    rw [svDig] at hf ⊢
    by_cases hsafe : svIsValid g num (p / 9) (p % 9) = true
    · rw [if_pos hsafe] at hf ⊢
      by_cases hr : (k (setCell g p num) (st ++ [Step.tryingS (p / 9) (p % 9) num])).1 = true
      · rw [if_pos hr] at hf
        rw [hf] at hr
        exact absurd hr (by simp)
      · rw [if_neg hr] at hf ⊢
        have hg' := hk (setCell g p num) (st ++ [Step.tryingS (p / 9) (p % 9) num])
          (by simpa using hr)
        rw [hg', setCell_setCell, setCell_zero_eq g p hz] at hf ⊢
        exact ih g p (num + 1) _ hz hf
    · rw [if_neg hsafe] at hf ⊢
      exact ih g p (num + 1) st hz hf

/-- Failure of `_solve_backtracking` (`sudoku_solver.py`) restores the grid. -/
theorem svAux_restore :
    ∀ fuel g st, (svAux fuel g st).1 = false → (svAux fuel g st).2.1 = g := by
  intro fuel
  induction fuel with
  | zero => intro g st _; rfl
  | succ fuel ih =>
    intro g st hf
    rw [svAux] at hf ⊢
    cases hfe : findEmpty g with
    | none => rfl
    | some p =>
      rw [hfe] at hf
      exact svDig_restore _ (fun g' st' => ih g' st') 9 g p 1 st (findEmpty_zero hfe) hf

/-- The `sudoku_solver.py` digit loop only writes to the found empty cell. -/
theorem svDig_extendsTo (k : Grid → List Step → Bool × Grid × List Step)
    (hk : ∀ g st, (k g st).1 = false → (k g st).2.1 = g)
    (he : ∀ g st, extendsTo g (k g st).2.1) :
    ∀ d g p num st, g p = 0 → extendsTo g (svDig k d g p num st).2.1 := by
  intro d
  induction d with
  | zero => intro g p num st _; exact extendsTo_refl g
  | succ d ih =>
    intro g p num st hz
    rw [svDig]
    by_cases hsafe : svIsValid g num (p / 9) (p % 9) = true
    · rw [if_pos hsafe]
      by_cases hr : (k (setCell g p num) (st ++ [Step.tryingS (p / 9) (p % 9) num])).1 = true
      · rw [if_pos hr]
        exact extendsTo_trans (extendsTo_setCell g p num hz)
          (he (setCell g p num) (st ++ [Step.tryingS (p / 9) (p % 9) num]))
      · rw [if_neg hr]
        have hg' := hk (setCell g p num) (st ++ [Step.tryingS (p / 9) (p % 9) num])
          (by simpa using hr)
        rw [hg', setCell_setCell, setCell_zero_eq g p hz]
        exact ih g p (num + 1) _ hz
    · rw [if_neg hsafe]
      exact ih g p (num + 1) st hz

/-- `_solve_backtracking` (`sudoku_solver.py`) only writes to empty cells. -/
theorem svAux_extendsTo : ∀ fuel g st, extendsTo g (svAux fuel g st).2.1 := by
  intro fuel
  induction fuel with
  | zero => intro g st; exact extendsTo_refl g
  | succ fuel ih =>
    intro g st
    rw [svAux]
    cases hfe : findEmpty g with
    | none => exact extendsTo_refl g
    | some p =>
      exact svDig_extendsTo _ (fun g' st' => svAux_restore fuel g' st')
        (fun g' st' => ih g' st') 9 g p 1 st (findEmpty_zero hfe)

/-- Failure of the `game.py` digit loop restores the grid. -/
theorem gameDig_restore (k : Grid → Bool × Grid)
    (hk : ∀ g, (k g).1 = false → (k g).2 = g) :
    ∀ d g p num, g p = 0 →
      (gameDig k d g p num).1 = false → (gameDig k d g p num).2 = g := by
  intro d
  induction d with
  | zero => intro g p num _ _; rfl
  | succ d ih =>
    intro g p num hz hf
    rw [gameDig] at hf ⊢
    by_cases hsafe : isSafe g (p / 9) (p % 9) num = true
    · rw [if_pos hsafe] at hf ⊢
      by_cases hr : (k (setCell g p num)).1 = true
      · rw [if_pos hr] at hf
        rw [hf] at hr
        exact absurd hr (by simp)
      · rw [if_neg hr] at hf ⊢
        have hg' := hk (setCell g p num) (by simpa using hr)
        rw [hg', setCell_setCell, setCell_zero_eq g p hz] at hf ⊢
        exact ih g p (num + 1) hz hf
    · rw [if_neg hsafe] at hf ⊢
      exact ih g p (num + 1) hz hf

/-- Failure of `_solve_grid` (`sudoku_lib/game.py`) restores the grid. -/
theorem gameAux_restore :
    ∀ fuel g, (gameAux fuel g).1 = false → (gameAux fuel g).2 = g := by
  intro fuel
  induction fuel with
  | zero => intro g _; rfl
  | succ fuel ih =>
    intro g hf
    rw [gameAux] at hf ⊢
    cases hfe : findEmpty g with
    | none => rfl
    | some p =>
      rw [hfe] at hf
      exact gameDig_restore _ (fun g' => ih g') 9 g p 1 (findEmpty_zero hfe) hf

/-- The `game.py` digit loop only writes to the found empty cell. -/
theorem gameDig_extendsTo (k : Grid → Bool × Grid)
    (hk : ∀ g, (k g).1 = false → (k g).2 = g)
    (he : ∀ g, extendsTo g (k g).2) :
    ∀ d g p num, g p = 0 → extendsTo g (gameDig k d g p num).2 := by
  intro d
  induction d with
  | zero => intro g p num _; exact extendsTo_refl g
  | succ d ih =>
    intro g p num hz
    rw [gameDig]
    by_cases hsafe : isSafe g (p / 9) (p % 9) num = true
    · rw [if_pos hsafe]
      by_cases hr : (k (setCell g p num)).1 = true
      · rw [if_pos hr]
        exact extendsTo_trans (extendsTo_setCell g p num hz) (he (setCell g p num))
      · rw [if_neg hr]
        have hg' := hk (setCell g p num) (by simpa using hr)
        rw [hg', setCell_setCell, setCell_zero_eq g p hz]
        exact ih g p (num + 1) hz
    · rw [if_neg hsafe]
      exact ih g p (num + 1) hz

/-- `_solve_grid` (`sudoku_lib/game.py`) only writes to empty cells. -/
theorem gameAux_extendsTo : ∀ fuel g, extendsTo g (gameAux fuel g).2 := by
  intro fuel
  induction fuel with
  | zero => intro g; exact extendsTo_refl g
  | succ fuel ih =>
    intro g
    rw [gameAux]
    cases hfe : findEmpty g with
    | none => exact extendsTo_refl g
    | some p =>
      exact gameDig_extendsTo _ (fun g' => gameAux_restore fuel g')
        (fun g' => ih g') 9 g p 1 (findEmpty_zero hfe)

/-! ### Claim C10 -/

/-- C10: all three backtracking recursions only ever write to cells that were
`0`: whatever the outcome, each non-zero input cell keeps its input value in
the returned grid (`_solve_step_by_step` of `sudoku_lib/solver.py`,
`_solve_backtracking` of `sudoku_solver.py`, `_solve_grid` of
`sudoku_lib/game.py`). -/
theorem claim_C10 :
    (∀ g p, g p ≠ 0 → (solveStepByStep g).2.1 p = g p) ∧
    (∀ g st p, g p ≠ 0 → (svBacktrack g st).2.1 p = g p) ∧
    (∀ g p, g p ≠ 0 → (gameSolveGrid g).2 p = g p) :=
  ⟨fun g p hp => libAux_extendsTo 81 g 0 [] p hp,
    fun g st p hp => svAux_extendsTo 82 g st p hp,
    fun g p hp => gameAux_extendsTo 82 g p hp⟩

/-- C10 (witness): the preservation applied to the given at cell `(0, 1)` of
`demoHole` for all three solvers. -/
theorem claim_C10_witness :
    demoHole 1 ≠ 0 ∧ (solveStepByStep demoHole).2.1 1 = demoHole 1 ∧
      (svBacktrack demoHole []).2.1 1 = demoHole 1 ∧
      (gameSolveGrid demoHole).2 1 = demoHole 1 := by
  have h : demoHole 1 ≠ 0 := by decide
  exact ⟨h, claim_C10.1 demoHole 1 h, claim_C10.2.1 demoHole [] 1 h,
    claim_C10.2.2 demoHole 1 h⟩

/-! ### Claim C3: the two legality checks against the specification -/

theorem box_scan_iff (g : Grid) (r c v : Nat) (hr : r < 9) (hc : c < 9) :
    (∃ t, t < 9 ∧ g (9 * (3 * (r / 3) + t / 3) + (3 * (c / 3) + t % 3)) = v) ↔
      (∃ i j, i < 9 ∧ j < 9 ∧ i / 3 = r / 3 ∧ j / 3 = c / 3 ∧ g (9 * i + j) = v) := by
  constructor
  · rintro ⟨t, ht, he⟩
    exact ⟨3 * (r / 3) + t / 3, 3 * (c / 3) + t % 3, by omega, by omega, by omega, by omega, he⟩
  · rintro ⟨i, j, hi, hj, hbr, hbc, he⟩
    refine ⟨i % 3 * 3 + j % 3, by omega, ?_⟩
    rw [show 9 * (3 * (r / 3) + (i % 3 * 3 + j % 3) / 3) + (3 * (c / 3) + (i % 3 * 3 + j % 3) % 3)
        = 9 * i + j by omega]
    exact he

theorem box_scan_excl_iff (g : Grid) (r c v : Nat) (hr : r < 9) (hc : c < 9) :
    (∃ t, t < 9 ∧ (g (9 * (3 * (r / 3) + t / 3) + (3 * (c / 3) + t % 3)) = v ∧
        ¬(3 * (r / 3) + t / 3 = r ∧ 3 * (c / 3) + t % 3 = c))) ↔
      (∃ i j, i < 9 ∧ j < 9 ∧ i / 3 = r / 3 ∧ j / 3 = c / 3 ∧ ¬(i = r ∧ j = c) ∧
        g (9 * i + j) = v) := by
  constructor
  · rintro ⟨t, ht, he, hex⟩
    exact ⟨3 * (r / 3) + t / 3, 3 * (c / 3) + t % 3, by omega, by omega, by omega, by omega,
      hex, he⟩
  · rintro ⟨i, j, hi, hj, hbr, hbc, hex, he⟩
    refine ⟨i % 3 * 3 + j % 3, by omega, ?_, ?_⟩
    · rw [show 9 * (3 * (r / 3) + (i % 3 * 3 + j % 3) / 3) +
          (3 * (c / 3) + (i % 3 * 3 + j % 3) % 3) = 9 * i + j by omega]
      exact he
    · intro hcon
      exact hex ⟨by omega, by omega⟩

/-- The legality check `_is_valid` of `sudoku_solver.py` is exactly the
absence of the value elsewhere in the cell's row, column and box. -/
theorem svIsValid_iff (g : Grid) (v r c : Nat) (hr : r < 9) (hc : c < 9) :
    svIsValid g v r c = true ↔ ¬ occursElsewhereIn g r c v := by
  have hrow : ((List.range 9).any fun i => (g (9 * r + i) == v) && !(c == i)) = true ↔
      (∃ j, j < 9 ∧ j ≠ c ∧ g (9 * r + j) = v) := by
    rw [List.any_eq_true]
    constructor
    · rintro ⟨i, hi, hcond⟩
      rw [List.mem_range] at hi
      rw [Bool.and_eq_true, beq_iff_eq, Bool.not_eq_true', beq_eq_false_iff_ne] at hcond
      exact ⟨i, hi, fun e => hcond.2 e.symm, hcond.1⟩
    · rintro ⟨j, hj, hne, he⟩
      refine ⟨j, List.mem_range.2 hj, ?_⟩
      rw [Bool.and_eq_true, beq_iff_eq, Bool.not_eq_true', beq_eq_false_iff_ne]
      exact ⟨he, fun e => hne e.symm⟩
  have hcol : ((List.range 9).any fun i => (g (9 * i + c) == v) && !(r == i)) = true ↔
      (∃ i, i < 9 ∧ i ≠ r ∧ g (9 * i + c) = v) := by
    rw [List.any_eq_true]
    constructor
    · rintro ⟨i, hi, hcond⟩
      rw [List.mem_range] at hi
      rw [Bool.and_eq_true, beq_iff_eq, Bool.not_eq_true', beq_eq_false_iff_ne] at hcond
      exact ⟨i, hi, fun e => hcond.2 e.symm, hcond.1⟩
    · rintro ⟨i, hi, hne, he⟩
      refine ⟨i, List.mem_range.2 hi, ?_⟩
      rw [Bool.and_eq_true, beq_iff_eq, Bool.not_eq_true', beq_eq_false_iff_ne]
      exact ⟨he, fun e => hne e.symm⟩
  have hbox : ((List.range 9).any fun t =>
      (g (9 * (3 * (r / 3) + t / 3) + (3 * (c / 3) + t % 3)) == v) &&
        !((3 * (r / 3) + t / 3) == r && ((3 * (c / 3) + t % 3) == c))) = true ↔
      (∃ i j, i < 9 ∧ j < 9 ∧ i / 3 = r / 3 ∧ j / 3 = c / 3 ∧ ¬(i = r ∧ j = c) ∧
        g (9 * i + j) = v) := by
    rw [← box_scan_excl_iff g r c v hr hc, List.any_eq_true]
    constructor
    · rintro ⟨t, ht, hcond⟩
      rw [List.mem_range] at ht
      rw [Bool.and_eq_true, beq_iff_eq, Bool.not_eq_true', Bool.and_eq_false_iff] at hcond
      refine ⟨t, ht, hcond.1, ?_⟩
      rintro ⟨h1, h2⟩
      rcases hcond.2 with h | h <;> rw [beq_eq_false_iff_ne] at h <;> [exact h h1; exact h h2]
    · rintro ⟨t, ht, he, hex⟩
      refine ⟨t, List.mem_range.2 ht, ?_⟩
      rw [Bool.and_eq_true, beq_iff_eq, Bool.not_eq_true', Bool.and_eq_false_iff]
      refine ⟨he, ?_⟩
      by_cases h1 : 3 * (r / 3) + t / 3 = r
      · right
        rw [beq_eq_false_iff_ne]
        exact fun h2 => hex ⟨h1, h2⟩
      · left
        rw [beq_eq_false_iff_ne]
        exact h1
  unfold svIsValid occursElsewhereIn
  by_cases h1 : ((List.range 9).any fun i => (g (9 * r + i) == v) && !(c == i)) = true
  · simp only [h1, if_true]
    rw [hrow] at h1
    constructor
    · intro h; exact absurd h (by simp)
    · intro h; exact absurd (Or.inl h1) h
  · rw [if_neg h1]
    by_cases h2 : ((List.range 9).any fun i => (g (9 * i + c) == v) && !(r == i)) = true
    · simp only [h2, if_true]
      rw [hcol] at h2
      constructor
      · intro h; exact absurd h (by simp)
      · intro h; exact absurd (Or.inr (Or.inl h2)) h
    · rw [if_neg h2]
      by_cases h3 : ((List.range 9).any fun t =>
          (g (9 * (3 * (r / 3) + t / 3) + (3 * (c / 3) + t % 3)) == v) &&
            !((3 * (r / 3) + t / 3) == r && ((3 * (c / 3) + t % 3) == c))) = true
      · simp only [h3, if_true]
        rw [hbox] at h3
        constructor
        · intro h; exact absurd h (by simp)
        · intro h; exact absurd (Or.inr (Or.inr h3)) h
      · rw [if_neg h3]
        constructor
        · intro _ hocc
          rcases hocc with h | h | h
          · exact h1 (hrow.2 h)
          · exact h2 (hcol.2 h)
          · exact h3 (hbox.2 h)
        · intro _; rfl

/-- The legality check `_is_safe` of `sudoku_lib/solver.py` is the absence of
the value anywhere in the cell's row, column and box — the cell itself
included. -/
theorem isSafe_iff (g : Grid) (v r c : Nat) (hr : r < 9) (hc : c < 9) :
    isSafe g r c v = true ↔ ¬ occursInGroup g r c v := by
  have hrow : hasVal (rowVals g r) v = true ↔ ∃ j, j < 9 ∧ g (9 * r + j) = v := by
    rw [hasVal_iff, mem_rowVals_iff]
  have hcol : hasVal (colVals g c) v = true ↔ ∃ i, i < 9 ∧ g (9 * i + c) = v := by
    rw [hasVal_iff, mem_colVals_iff]
  have hbox : hasVal (boxVals g r c) v = true ↔
      (∃ i j, i < 9 ∧ j < 9 ∧ i / 3 = r / 3 ∧ j / 3 = c / 3 ∧ g (9 * i + j) = v) := by
    rw [hasVal_iff, mem_boxVals_iff, box_scan_iff g r c v hr hc]
  unfold isSafe occursInGroup
  by_cases h1 : hasVal (rowVals g r) v = true
  · simp only [h1, if_true]
    constructor
    · intro h; exact absurd h (by simp)
    · intro h; exact absurd (Or.inl (hrow.1 h1)) h
  · rw [if_neg h1]
    by_cases h2 : hasVal (colVals g c) v = true
    · simp only [h2, if_true]
      constructor
      · intro h; exact absurd h (by simp)
      · intro h; exact absurd (Or.inr (Or.inl (hcol.1 h2))) h
    · rw [if_neg h2]
      by_cases h3 : hasVal (boxVals g r c) v = true
      · simp only [h3, if_true]
        constructor
        · intro h; exact absurd h (by simp)
        · intro h; exact absurd (Or.inr (Or.inr (hbox.1 h3))) h
      · rw [if_neg h3]
        constructor
        · intro _ hocc
          rcases hocc with h | h | h
          · exact h1 (hrow.2 h)
          · exact h2 (hcol.2 h)
          · exact h3 (hbox.2 h)
        · intro _; rfl

/-- C3 (amended): the legality check `_is_valid` of `sudoku_solver.py`
returns false exactly when the value occurs elsewhere in the row, column or
box of the cell (the cell itself excluded), as the claim states; the check
`_is_safe` of `sudoku_lib/solver.py`, however, returns false exactly when
the value occurs anywhere in the row, column or box — including the cell
`(r, c)` itself, so it does not exclude a cell that already holds the
value. -/
theorem claim_C3_amended (g : Grid) (r c v : Nat) (hr : r < 9) (hc : c < 9) :
    (svIsValid g v r c = false ↔ occursElsewhereIn g r c v) ∧
      (isSafe g r c v = false ↔ occursInGroup g r c v) := by
  constructor
  · have h := svIsValid_iff g v r c hr hc
    cases hx : svIsValid g v r c
    · rw [hx] at h
      simp only [Bool.false_eq_true, false_iff, not_not] at h
      simp [h]
    · rw [hx] at h
      simp only [true_iff] at h
      simp [h]
  · have h := isSafe_iff g v r c hr hc
    cases hx : isSafe g r c v
    · rw [hx] at h
      simp only [Bool.false_eq_true, false_iff, not_not] at h
      simp [h]
    · rw [hx] at h
      simp only [true_iff] at h
      simp [h]

/-- C3 (counterexample): on the grid whose only filled cell `(0, 0)` holds
`5`, the check `_is_safe(0, 0, 5)` of `sudoku_lib/solver.py` returns false
although `5` occurs nowhere other than the cell itself — refuting the claim
that the legality check returns false only if the value occurs elsewhere. -/
theorem claim_C3_counterexample :
    isSafe fiveGrid 0 0 5 = false ∧ ¬ occursElsewhereIn fiveGrid 0 0 5 := by
  constructor
  · decide
  · rintro (⟨j, hj, hne, he⟩ | ⟨i, hi, hne, he⟩ | ⟨i, j, hi, hj, _, _, hne, he⟩)
    · rw [show fiveGrid (9 * 0 + j) = (if 9 * 0 + j = 0 then 5 else 0) from rfl] at he
      rw [if_neg (by omega)] at he
      exact absurd he (by omega)
    · rw [show fiveGrid (9 * i + 0) = (if 9 * i + 0 = 0 then 5 else 0) from rfl] at he
      rw [if_neg (by omega)] at he
      exact absurd he (by omega)
    · rw [show fiveGrid (9 * i + j) = (if 9 * i + j = 0 then 5 else 0) from rfl] at he
      by_cases hz : 9 * i + j = 0
      · exact hne ⟨by omega, by omega⟩
      · rw [if_neg hz] at he
        exact absurd he (by omega)

/-- C3 (witness): the amended claim applied to the cell `(0, 0)` of
`fiveGrid` with value `5`. -/
theorem claim_C3_witness :
    (svIsValid fiveGrid 5 0 0 = false ↔ occursElsewhereIn fiveGrid 0 0 5) ∧
      (isSafe fiveGrid 0 0 5 = false ↔ occursInGroup fiveGrid 0 0 5) :=
  claim_C3_amended fiveGrid 0 0 5 (by omega) (by omega)

/-! ### Claim C8: `check_move` -/

/-- `check_move` of `sudoku_solver.py` accepts exactly when the cell already
holds the value, or the value appears nowhere in the cell's row, column or
box. -/
theorem svCheckMove_iff (g : Grid) (r c v : Nat) (hr : r < 9) (hc : c < 9) :
    (svCheckMove g r c v).1 = true ↔ (g (9 * r + c) = v ∨ ¬ occursInGroup g r c v) := by
  unfold svCheckMove
  by_cases h0 : (g (9 * r + c) == v) = true
  · rw [if_pos h0]
    rw [beq_iff_eq] at h0
    simp [h0]
  · rw [if_neg h0]
    have hne : g (9 * r + c) ≠ v := by simpa using h0
    have hchain : (if hasVal (rowVals g r) v then ((false, Reason.rowConflict v r) : Bool × Reason)
        else if hasVal (colVals g c) v then (false, Reason.colConflict v c)
        else if hasVal (boxVals g r c) v then (false, Reason.boxConflict v)
        else (true, Reason.validMove)).1 = isSafe g r c v := by
      unfold isSafe
      by_cases h1 : hasVal (rowVals g r) v = true <;>
        by_cases h2 : hasVal (colVals g c) v = true <;>
          by_cases h3 : hasVal (boxVals g r c) v = true <;>
            simp [h1, h2, h3]
    rw [hchain, isSafe_iff g v r c hr hc]
    constructor
    · intro h
      exact Or.inr h
    · rintro (h | h)
      · exact absurd h hne
      · exact h

/-- C8 (amended): `check_move` accepts a move exactly when the target cell
already holds the value, or the value occurs nowhere in the cell's row,
column or box; emptiness of the target cell is not required, so a move into
a cell holding a different non-zero value is accepted whenever no group
constraint is violated. -/
theorem claim_C8_amended (g : Grid) (r c v : Nat) (hr : r < 9) (hc : c < 9) :
    (svCheckMove g r c v).1 = true ↔ (g (9 * r + c) = v ∨ ¬ occursInGroup g r c v) :=
  svCheckMove_iff g r c v hr hc

/-- C8 (counterexample): on the grid whose cell `(0, 0)` holds `7`, the move
`check_move(0, 0, 5)` is accepted although the cell already holds a
different non-zero value — refuting the claim that such moves are never
accepted. -/
theorem claim_C8_counterexample :
    sevenGrid 0 = 7 ∧ (svCheckMove sevenGrid 0 0 5).1 = true ∧
      (svCheckMove sevenGrid 0 0 5).2 = Reason.validMove := by decide

/-- C8 (witness): the amended claim applied to `sevenGrid` at `(0, 0)` with
value `5`. -/
theorem claim_C8_witness :
    (svCheckMove sevenGrid 0 0 5).1 = true ↔
      (sevenGrid (9 * 0 + 0) = 5 ∨ ¬ occursInGroup sevenGrid 0 0 5) :=
  claim_C8_amended sevenGrid 0 0 5 (by omega) (by omega)

/-! ### Claim C6: the API validator -/

theorem inRange_of_b (g : Grid) (h : inRangeB g = true) : inRange g := by
  intro p hp
  have := (List.all_eq_true.1 h) p (List.mem_range.2 hp)
  simp at this
  omega

/-- C6: for every grid with values in `[0, 9]` (the data-model invariant),
`validate_solution` of `sudoku_lib/api.py` returns `is_valid = true` only if
every row, column and box contains each of `1..9` exactly once; and every
grid containing a `0` cell is rejected as `(false, ["Grid is incomplete"])`,
never silently accepted. -/
theorem claim_C6 (g : Grid) (hr9 : inRange g) :
    ((validateSolution g).1 = true →
      ∀ i, i < 9 → ∀ v, 1 ≤ v → v ≤ 9 →
        (rowVals g i).count v = 1 ∧ (colVals g i).count v = 1 ∧
          (boxList g i).count v = 1) ∧
    ((∃ p, p < 81 ∧ g p = 0) → validateSolution g = (false, [VErr.incomplete])) := by
  constructor
  · intro hv i hi v hv1 hv9
    unfold validateSolution at hv
    by_cases hz : hasZero g = true
    · rw [if_pos hz] at hv
      simp at hv
    · rw [if_neg hz] at hv
      dsimp only at hv
      have hcomp : complete g := by
        intro p hp hzz
        apply hz
        unfold hasZero
        rw [List.any_eq_true]
        exact ⟨p, List.mem_range.2 hp, by simp [hzz]⟩
      rw [List.isEmpty_iff] at hv
      rw [List.append_eq_nil] at hv
      obtain ⟨hv12, hbox⟩ := hv
      rw [List.append_eq_nil] at hv12
      obtain ⟨hrow, hcol⟩ := hv12
      have hnr : (rowVals g i).Nodup := by
        by_contra hnd
        have := (List.filterMap_eq_nil_iff.1 hrow) i (List.mem_range.2 hi)
        rw [if_neg hnd] at this
        exact absurd this (by simp)
      have hncl : (colVals g i).Nodup := by
        by_contra hnd
        have := (List.filterMap_eq_nil_iff.1 hcol) i (List.mem_range.2 hi)
        rw [if_neg hnd] at this
        exact absurd this (by simp)
      have hnb : (boxList g i).Nodup := by
        by_contra hnd
        have := (List.filterMap_eq_nil_iff.1 hbox) i (List.mem_range.2 hi)
        rw [if_neg hnd] at this
        exact absurd this (by simp)
      refine ⟨count_eq_one_of_nine _ (by simp [rowVals]) hnr ?_ v hv1 hv9,
        count_eq_one_of_nine _ (by simp [colVals]) hncl ?_ v hv1 hv9,
        count_eq_one_of_nine _ (by simp [boxList]) hnb ?_ v hv1 hv9⟩
      · intro x hx
        rw [mem_rowVals_iff] at hx
        obtain ⟨j, hj, he⟩ := hx
        have hp : 9 * i + j < 81 := by omega
        have := hcomp _ hp
        have := hr9 _ hp
        omega
      · intro x hx
        rw [mem_colVals_iff] at hx
        obtain ⟨j, hj, he⟩ := hx
        have hp : 9 * j + i < 81 := by omega
        have := hcomp _ hp
        have := hr9 _ hp
        omega
      · intro x hx
        unfold boxList at hx
        rw [List.mem_map] at hx
        obtain ⟨t, ht, he⟩ := hx
        rw [List.mem_range] at ht
        have hp : 9 * (3 * (i / 3) + t / 3) + (3 * (i % 3) + t % 3) < 81 := by omega
        have := hcomp _ hp
        have := hr9 _ hp
        omega
  · rintro ⟨p, hp, hz⟩
    unfold validateSolution
    rw [if_pos ?_]
    unfold hasZero
    rw [List.any_eq_true]
    exact ⟨p, List.mem_range.2 hp, by simp [hz]⟩

/-- C6 (witness): the validator applied to the complete `demoGrid` (valid,
with each digit once per group) and to the incomplete `demoHole` (rejected
with the incomplete error). -/
theorem claim_C6_witness :
    inRange demoGrid ∧ (validateSolution demoGrid).1 = true ∧
      (rowVals demoGrid 0).count 5 = 1 ∧
      validateSolution demoHole = (false, [VErr.incomplete]) := by
  have h1 : inRange demoGrid := inRange_of_b _ (by decide)
  have h2 : inRange demoHole := inRange_of_b _ (by decide)
  refine ⟨h1, by decide, ?_, ?_⟩
  · exact ((claim_C6 demoGrid h1).1 (by decide) 0 (by omega) 5 (by omega) (by omega)).1
  · exact (claim_C6 demoHole h2).2 ⟨0, by omega, by decide⟩

/-! ### Claim C9: the hint ledger -/

/-- `solve` of `sudoku_solver.py` never touches `used_hints`. -/
theorem svSolve_used (s : Session) : (svSolve s).2.2.used = s.used := by
  cases hl : lookupPuzzle s.puzzles s.orig with
  | some sol => simp only [svSolve, hl]
  | none =>
    simp only [svSolve, hl]
    by_cases hz : hasZero (logicLoop 82 s.grid []).1 = true
    · rw [if_pos hz]
      by_cases hb : (svBacktrack (logicLoop 82 s.grid []).1
          ((logicLoop 82 s.grid []).2 ++ [Step.useBacktrack])).1 = true
      · rw [if_pos hb]
      · rw [if_neg hb]
    · rw [if_neg hz]

/-- Branch equation of `get_hint` (`sudoku_solver.py`): a naked single is
found. -/
theorem svGetHint_eq_naked (s : Session) (e : Nat × Nat × List Nat)
    (h1 : (svCandidates s.grid).find? (fun e =>
        (e.2.2.length == 1) && !(s.used.contains (e.1, e.2.1))) = some e) :
    svGetHint s = (some (e.1, e.2.1, e.2.2.headD 0, Hmsg.canOnlyBe (e.2.2.headD 0)),
      { s with used := s.used ++ [(e.1, e.2.1)] }) := by
  unfold svGetHint
  rw [h1]

/-- Branch equation of `get_hint` (`sudoku_solver.py`): no naked single, a
hidden single is found. -/
theorem svGetHint_eq_hidden (s : Session) (rn : Nat × Nat)
    (h1 : (svCandidates s.grid).find? (fun e =>
        (e.2.2.length == 1) && !(s.used.contains (e.1, e.2.1))) = none)
    (h2 : rowNumPairs.find? (fun rn =>
        !(hasVal (rowVals s.grid rn.1) rn.2) &&
          (((List.range 9).filter fun c1 =>
              (s.grid (9 * rn.1 + c1) == 0) && !(s.used.contains (rn.1, c1)) &&
                (possibleValues s.grid rn.1 c1).contains rn.2).length == 1)) = some rn) :
    svGetHint s =
      (some (rn.1, ((List.range 9).filter fun c2 =>
            (s.grid (9 * rn.1 + c2) == 0) && !(s.used.contains (rn.1, c2)) &&
              (possibleValues s.grid rn.1 c2).contains rn.2).headD 0, rn.2,
          Hmsg.onlyCellInRow rn.1 rn.2),
        { s with used := s.used ++ [(rn.1, ((List.range 9).filter fun c2 =>
            (s.grid (9 * rn.1 + c2) == 0) && !(s.used.contains (rn.1, c2)) &&
              (possibleValues s.grid rn.1 c2).contains rn.2).headD 0)] }) := by
  unfold svGetHint
  rw [h1, h2]

/-- Branch equation of `get_hint` (`sudoku_solver.py`): no logical hint, the
fallback solve succeeds and a differing cell outside the ledger is found. -/
theorem svGetHint_eq_fallback (s : Session) (p : Nat)
    (h1 : (svCandidates s.grid).find? (fun e =>
        (e.2.2.length == 1) && !(s.used.contains (e.1, e.2.1))) = none)
    (h2 : rowNumPairs.find? (fun rn =>
        !(hasVal (rowVals s.grid rn.1) rn.2) &&
          (((List.range 9).filter fun c1 =>
              (s.grid (9 * rn.1 + c1) == 0) && !(s.used.contains (rn.1, c1)) &&
                (possibleValues s.grid rn.1 c1).contains rn.2).length == 1)) = none)
    (hs : (svSolve s).1 = true)
    (h3 : (List.range 81).find? (fun p =>
        (s.grid p == 0) && ((svSolve s).2.2.grid p != 0) &&
          !((svSolve s).2.2.used.contains (p / 9, p % 9))) = some p) :
    svGetHint s = (some (p / 9, p % 9, (svSolve s).2.2.grid p,
        Hmsg.tryHere ((svSolve s).2.2.grid p)),
      { (svSolve s).2.2 with used := (svSolve s).2.2.used ++ [(p / 9, p % 9)] }) := by
  unfold svGetHint
  rw [h1, h2]
  dsimp only
  rw [if_pos hs, h3]

/-- Branch equation of `get_hint` (`sudoku_solver.py`): fallback solve
succeeds but every differing cell is already in the ledger. -/
theorem svGetHint_eq_noDiff (s : Session)
    (h1 : (svCandidates s.grid).find? (fun e =>
        (e.2.2.length == 1) && !(s.used.contains (e.1, e.2.1))) = none)
    (h2 : rowNumPairs.find? (fun rn =>
        !(hasVal (rowVals s.grid rn.1) rn.2) &&
          (((List.range 9).filter fun c1 =>
              (s.grid (9 * rn.1 + c1) == 0) && !(s.used.contains (rn.1, c1)) &&
                (possibleValues s.grid rn.1 c1).contains rn.2).length == 1)) = none)
    (hs : (svSolve s).1 = true)
    (h3 : (List.range 81).find? (fun p =>
        (s.grid p == 0) && ((svSolve s).2.2.grid p != 0) &&
          !((svSolve s).2.2.used.contains (p / 9, p % 9))) = none) :
    svGetHint s = (none, (svSolve s).2.2) := by
  unfold svGetHint
  rw [h1, h2]
  dsimp only
  rw [if_pos hs, h3]

/-- Branch equation of `get_hint` (`sudoku_solver.py`): the fallback solve
fails. -/
theorem svGetHint_eq_fail (s : Session)
    (h1 : (svCandidates s.grid).find? (fun e =>
        (e.2.2.length == 1) && !(s.used.contains (e.1, e.2.1))) = none)
    (h2 : rowNumPairs.find? (fun rn =>
        !(hasVal (rowVals s.grid rn.1) rn.2) &&
          (((List.range 9).filter fun c1 =>
              (s.grid (9 * rn.1 + c1) == 0) && !(s.used.contains (rn.1, c1)) &&
                (possibleValues s.grid rn.1 c1).contains rn.2).length == 1)) = none)
    (hs : (svSolve s).1 = false) :
    svGetHint s = (none, (svSolve s).2.2) := by
  unfold svGetHint
  rw [h1, h2]
  dsimp only
  rw [if_neg (by rw [hs]; exact Bool.false_ne_true)]

/-- C9 (amended): `get_hint` of `sudoku_solver.py` only ever returns a cell
that is not yet in the hint ledger and appends it to the ledger before
returning; consequently two successive hints of one session never name the
same cell.  (The `get_hint` of `sudoku_lib/solver.py` also records the
returned cell, but never consults the ledger, so it can repeat a cell.) -/
theorem claim_C9_amended :
    (∀ s r c v m, (svGetHint s).1 = some (r, c, v, m) →
      (r, c) ∉ s.used ∧ (svGetHint s).2.used = s.used ++ [(r, c)]) ∧
    (∀ s r c v m r' c' v' m', (svGetHint s).1 = some (r, c, v, m) →
      (svGetHint (svGetHint s).2).1 = some (r', c', v', m') → (r, c) ≠ (r', c')) := by
  have hmain : ∀ s r c v m, (svGetHint s).1 = some (r, c, v, m) →
      (r, c) ∉ s.used ∧ (svGetHint s).2.used = s.used ++ [(r, c)] := by
    intro s r c v m h
    cases h1 : (svCandidates s.grid).find? (fun e =>
        (e.2.2.length == 1) && !(s.used.contains (e.1, e.2.1))) with
    | some e =>
      rw [svGetHint_eq_naked s e h1] at h ⊢
      simp only [Option.some.injEq, Prod.mk.injEq] at h
      obtain ⟨hr, hc, -⟩ := h
      have hpred := List.find?_some h1
      rw [Bool.and_eq_true] at hpred
      have hnm : (e.1, e.2.1) ∉ s.used := by
        have h2 := hpred.2
        simp at h2
        exact h2
      subst hr hc
      exact ⟨hnm, rfl⟩
    | none =>
      cases h2 : rowNumPairs.find? (fun rn =>
          !(hasVal (rowVals s.grid rn.1) rn.2) &&
            (((List.range 9).filter fun c1 =>
                (s.grid (9 * rn.1 + c1) == 0) && !(s.used.contains (rn.1, c1)) &&
                  (possibleValues s.grid rn.1 c1).contains rn.2).length == 1)) with
      | some rn =>
        rw [svGetHint_eq_hidden s rn h1 h2] at h ⊢
        set x := (List.range 9).filter fun c1 =>
          (s.grid (9 * rn.1 + c1) == 0) && !(s.used.contains (rn.1, c1)) &&
            (possibleValues s.grid rn.1 c1).contains rn.2 with hxdef
        simp only [Option.some.injEq, Prod.mk.injEq] at h
        obtain ⟨hr, hc, -⟩ := h
        have hpred := List.find?_some h2
        rw [Bool.and_eq_true] at hpred
        have hlen : x.length = 1 := by
          have h3 := hpred.2
          rw [beq_iff_eq] at h3
          rw [hxdef]
          exact h3
        have hhead : x.headD 0 ∈ x := by
          cases hx2 : x with
          | nil => rw [hx2] at hlen; simp at hlen
          | cons a l => simp [hx2]
        have hx_all : ∀ y ∈ x, (rn.1, y) ∉ s.used := by
          intro y hy
          rw [hxdef] at hy
          have h4 := (List.mem_filter.1 hy).2
          rw [Bool.and_eq_true, Bool.and_eq_true] at h4
          have h5 := h4.1.2
          simp at h5
          exact h5
        have hnm := hx_all (x.headD 0) hhead
        subst hr hc
        exact ⟨hnm, rfl⟩
      | none =>
        by_cases hs : (svSolve s).1 = true
        · cases h3 : (List.range 81).find? (fun p =>
              (s.grid p == 0) && ((svSolve s).2.2.grid p != 0) &&
                !((svSolve s).2.2.used.contains (p / 9, p % 9))) with
          | some p =>
            rw [svGetHint_eq_fallback s p h1 h2 hs h3] at h ⊢
            simp only [Option.some.injEq, Prod.mk.injEq] at h
            obtain ⟨hr, hc, -⟩ := h
            have hpred := List.find?_some h3
            rw [Bool.and_eq_true] at hpred
            have hnm : (p / 9, p % 9) ∉ (svSolve s).2.2.used := by
              have h4 := hpred.2
              simp at h4
              exact h4
            rw [svSolve_used s] at hnm
            subst hr hc
            rw [svSolve_used s]
            exact ⟨hnm, rfl⟩
          | none =>
            rw [svGetHint_eq_noDiff s h1 h2 hs h3] at h
            simp at h
        · have hsf : (svSolve s).1 = false := by
            cases hb : (svSolve s).1
            · rfl
            · exact absurd hb hs
          rw [svGetHint_eq_fail s h1 h2 hsf] at h
          simp at h
  refine ⟨hmain, ?_⟩
  intro s r c v m r' c' v' m' h h'
  obtain ⟨-, hled⟩ := hmain s r c v m h
  obtain ⟨hnm', -⟩ := hmain (svGetHint s).2 r' c' v' m' h'
  rw [hled] at hnm'
  intro he
  exact hnm' (he ▸ List.mem_append_right _ (List.mem_singleton.2 rfl))

/-- C9 (counterexample): on a fresh `sudoku_lib/solver.py` session for
`demoHole`, two successive `get_hint` calls both return cell `(0, 0)` — the
cell is added to the ledger by the first call, but the scan never consults
the ledger, refuting the claim for this implementation. -/
theorem claim_C9_counterexample :
    (libGetHint (initSession demoHole)).1 = some (0, 0, 1, Hmsg.tryHere 1) ∧
      (0, 0) ∈ (libGetHint (initSession demoHole)).2.used ∧
      (libGetHint (libGetHint (initSession demoHole)).2).1 =
        some (0, 0, 1, Hmsg.tryHere 1) := by decide

/-- C9 (witness): the ledger invariant applied to a fresh `sudoku_solver.py`
session on `demoHole`, whose first hint is the naked single `1` at
`(0, 0)`. -/
theorem claim_C9_witness :
    (svGetHint (initSession demoHole)).1 = some (0, 0, 1, Hmsg.canOnlyBe 1) ∧
      (0, 0) ∉ (initSession demoHole).used ∧
      (svGetHint (initSession demoHole)).2.used = [] ++ [(0, 0)] := by
  have h : (svGetHint (initSession demoHole)).1 = some (0, 0, 1, Hmsg.canOnlyBe 1) := by
    decide
  have h2 := claim_C9_amended.1 (initSession demoHole) 0 0 1 (Hmsg.canOnlyBe 1) h
  exact ⟨h, h2.1, h2.2⟩

/-! ### Completeness of the backtrackers

The converse of the soundness theorems: whenever the input grid has at least
one valid completion, the exhaustive digit loops of `_solve_step_by_step`
(`sudoku_lib/solver.py`) and `_solve_grid` (`sudoku_lib/game.py`) find one.
Together with soundness this pins the success of either backtracker exactly
to the existence of a solution. -/

/-- A nine-element list containing every digit `1..9` exactly once is a
permutation of `1..9`. -/
theorem perm_of_count_eq_one (l : List Nat) (hlen : l.length = 9)
    (hcnt : ∀ v, 1 ≤ v → v ≤ 9 → l.count v = 1) : l.Perm (List.range' 1 9) := by
  have hle : (List.range' 1 9 : Multiset Nat) ≤ (l : Multiset Nat) := by
    rw [Multiset.le_iff_count]
    intro a
    rw [Multiset.coe_count, Multiset.coe_count]
    by_cases ha : 1 ≤ a ∧ a ≤ 9
    · rw [hcnt a ha.1 ha.2,
        List.count_eq_one_of_mem (by decide) (List.mem_range'_1.2 ⟨ha.1, by omega⟩)]
    · rw [List.count_eq_zero_of_not_mem]
      · exact Nat.zero_le _
      · intro hm
        have := List.mem_range'_1.1 hm
        omega
  have hcard : Multiset.card (l : Multiset Nat) ≤
      Multiset.card (List.range' 1 9 : Multiset Nat) := by
    simp [hlen]
  exact (Multiset.coe_eq_coe.1 (Multiset.eq_of_le_of_card_le hle hcard)).symm

/-- In a grid whose rows each hold every digit exactly once, row `i` is a
permutation of `1..9`. -/
theorem rowVals_perm {g : Grid} (hv : validComplete g) {i : Nat} (hi : i < 9) :
    (rowVals g i).Perm (List.range' 1 9) :=
  perm_of_count_eq_one _ (by simp [rowVals]) fun v h1 h9 => (hv i hi v h1 h9).1

/-- Column analogue of `rowVals_perm`. -/
theorem colVals_perm {g : Grid} (hv : validComplete g) {i : Nat} (hi : i < 9) :
    (colVals g i).Perm (List.range' 1 9) :=
  perm_of_count_eq_one _ (by simp [colVals]) fun v h1 h9 => (hv i hi v h1 h9).2.1

/-- Box analogue of `rowVals_perm`. -/
theorem boxList_perm {g : Grid} (hv : validComplete g) {b : Nat} (hb : b < 9) :
    (boxList g b).Perm (List.range' 1 9) :=
  perm_of_count_eq_one _ (by simp [boxList]) fun v h1 h9 => (hv b hb v h1 h9).2.2

/-- Every cell value of a `validComplete` grid lies in `[1, 9]`. -/
theorem validComplete_range {g : Grid} (hv : validComplete g) {p : Nat} (hp : p < 81) :
    1 ≤ g p ∧ g p ≤ 9 := by
  have hperm := rowVals_perm hv (show p / 9 < 9 by omega)
  have hmem : g p ∈ rowVals g (p / 9) :=
    (mem_rowVals_iff g (p / 9) (g p)).2
      ⟨p % 9, by omega, by rw [show 9 * (p / 9) + p % 9 = p by omega]⟩
  have := List.mem_range'_1.1 (hperm.mem_iff.1 hmem)
  omega

/-- Rows of a `validComplete` grid have no duplicate. -/
theorem rowVals_nodup_of_valid {g : Grid} (hv : validComplete g) {i : Nat} (hi : i < 9) :
    (rowVals g i).Nodup := (rowVals_perm hv hi).nodup_iff.2 (by decide)

/-- Columns of a `validComplete` grid have no duplicate. -/
theorem colVals_nodup_of_valid {g : Grid} (hv : validComplete g) {i : Nat} (hi : i < 9) :
    (colVals g i).Nodup := (colVals_perm hv hi).nodup_iff.2 (by decide)

/-- Boxes of a `validComplete` grid have no duplicate. -/
theorem boxList_nodup_of_valid {g : Grid} (hv : validComplete g) {b : Nat} (hb : b < 9) :
    (boxList g b).Nodup := (boxList_perm hv hb).nodup_iff.2 (by decide)

/-- Two distinct cells of a shared row, column or box of a `validComplete`
grid hold distinct values. -/
theorem validComplete_distinct {g : Grid} (hv : validComplete g) :
    ∀ p q, p < 81 → q < 81 → p ≠ q → sameGroup p q → g p ≠ g q := by
  intro p q hp hq hne hsg heq
  rcases hsg with hg | hg | hg
  · unfold sameRow at hg
    have hnd := rowVals_nodup_of_valid hv (show p / 9 < 9 by omega)
    unfold rowVals at hnd
    have h1 : p % 9 ∈ List.range 9 := List.mem_range.2 (by omega)
    have h2 : q % 9 ∈ List.range 9 := List.mem_range.2 (by omega)
    have hfe : g (9 * (p / 9) + p % 9) = g (9 * (p / 9) + q % 9) := by
      rw [show 9 * (p / 9) + p % 9 = p by omega, show 9 * (p / 9) + q % 9 = q by omega]
      exact heq
    have := List.inj_on_of_nodup_map hnd h1 h2 hfe
    omega
  · unfold sameCol at hg
    have hnd := colVals_nodup_of_valid hv (show p % 9 < 9 by omega)
    unfold colVals at hnd
    have h1 : p / 9 ∈ List.range 9 := List.mem_range.2 (by omega)
    have h2 : q / 9 ∈ List.range 9 := List.mem_range.2 (by omega)
    have hfe : g (9 * (p / 9) + p % 9) = g (9 * (q / 9) + p % 9) := by
      rw [show 9 * (p / 9) + p % 9 = p by omega, show 9 * (q / 9) + p % 9 = q by omega]
      exact heq
    have := List.inj_on_of_nodup_map hnd h1 h2 hfe
    omega
  · unfold sameBox at hg
    have hnd := boxList_nodup_of_valid hv (show 3 * (p / 27) + p % 9 / 3 < 9 by omega)
    unfold boxList at hnd
    have h1 : 3 * (p / 9 % 3) + p % 9 % 3 ∈ List.range 9 := List.mem_range.2 (by omega)
    have h2 : 3 * (q / 9 % 3) + q % 9 % 3 ∈ List.range 9 := List.mem_range.2 (by omega)
    have hfe : g (9 * (3 * ((3 * (p / 27) + p % 9 / 3) / 3) +
          (3 * (p / 9 % 3) + p % 9 % 3) / 3) +
          (3 * ((3 * (p / 27) + p % 9 / 3) % 3) + (3 * (p / 9 % 3) + p % 9 % 3) % 3)) =
        g (9 * (3 * ((3 * (p / 27) + p % 9 / 3) / 3) +
          (3 * (q / 9 % 3) + q % 9 % 3) / 3) +
          (3 * ((3 * (p / 27) + p % 9 / 3) % 3) + (3 * (q / 9 % 3) + q % 9 % 3) % 3)) := by
      rw [show 9 * (3 * ((3 * (p / 27) + p % 9 / 3) / 3) +
          (3 * (p / 9 % 3) + p % 9 % 3) / 3) +
          (3 * ((3 * (p / 27) + p % 9 / 3) % 3) + (3 * (p / 9 % 3) + p % 9 % 3) % 3) = p
          by omega,
        show 9 * (3 * ((3 * (p / 27) + p % 9 / 3) / 3) +
          (3 * (q / 9 % 3) + q % 9 % 3) / 3) +
          (3 * ((3 * (p / 27) + p % 9 / 3) % 3) + (3 * (q / 9 % 3) + q % 9 % 3) % 3) = q
          by omega]
      exact heq
    have := List.inj_on_of_nodup_map hnd h1 h2 hfe
    omega

/-- If `S` solves `g`, the digit `S p` passes `_is_safe` at any empty cell
`p` of `g`: the scans of `g` cannot see `S p` anywhere in `p`'s groups. -/
theorem isSafe_of_solution {g S : Grid} (hsol : solutionOf g S) {p : Nat}
    (hp : p < 81) (hz : g p = 0) : isSafe g (p / 9) (p % 9) (S p) = true := by
  obtain ⟨hext, hcomp, hvc⟩ := hsol
  have hSp := validComplete_range hvc hp
  have key : ∀ q, q < 81 → sameGroup p q → g q ≠ S p := by
    intro q hq hsg hgq
    have hq0 : g q ≠ 0 := by omega
    have hSq : S q = g q := hext q hq0
    by_cases hqp : q = p
    · subst hqp; omega
    · exact validComplete_distinct hvc q p hq hp hqp (sameGroup_symm hsg)
        (hSq.trans hgq)
  have hrow : hasVal (rowVals g (p / 9)) (S p) = false := by
    rw [Bool.eq_false_iff]
    intro hv'
    rw [hasVal_iff, mem_rowVals_iff] at hv'
    obtain ⟨j, hj, he⟩ := hv'
    exact key (9 * (p / 9) + j) (by omega) (Or.inl (by unfold sameRow; omega)) he
  have hcol : hasVal (colVals g (p % 9)) (S p) = false := by
    rw [Bool.eq_false_iff]
    intro hv'
    rw [hasVal_iff, mem_colVals_iff] at hv'
    obtain ⟨i, hi, he⟩ := hv'
    exact key (9 * i + p % 9) (by omega) (Or.inr (Or.inl (by unfold sameCol; omega))) he
  have hbox : hasVal (boxVals g (p / 9) (p % 9)) (S p) = false := by
    rw [Bool.eq_false_iff]
    intro hv'
    rw [hasVal_iff, mem_boxVals_iff] at hv'
    obtain ⟨t, ht, he⟩ := hv'
    refine key (9 * (3 * (p / 9 / 3) + t / 3) + (3 * (p % 9 / 3) + t % 3)) (by omega)
      (Or.inr (Or.inr ⟨by omega, by omega⟩)) he
  simp [isSafe, hrow, hcol, hbox]

/-- Completeness of the `sudoku_lib/solver.py` digit loop, parametric in the
continuation `k`: if `S` solves the current grid and the loop still has the
digit `S pos` ahead of it, the loop succeeds. -/
theorem libDig_complete (k : Grid → List Step → Bool × Grid × List Step) (pos : Nat)
    (hk : ∀ g st, (k g st).1 = false → (k g st).2.1 = g)
    (hc : ∀ g st, (∃ S, solutionOf g S) → (k g st).1 = true) :
    ∀ d num g st S, num + d = 10 → g pos = 0 → pos < 81 → solutionOf g S →
      num ≤ S pos → (libDig k d g pos num st).1 = true := by
  intro d
  induction d with
  | zero =>
    intro num g st S hnd hz hp hsol hle
    exfalso
    have := validComplete_range hsol.2.2 hp
    omega
  | succ d ih =>
    intro num g st S hnd hz hp hsol hle
    rw [libDig]
    by_cases heq : num = S pos
    · subst heq
      have hsafe := isSafe_of_solution hsol hp hz
      rw [if_pos hsafe]
      have hsol' : solutionOf (setCell g pos (S pos)) S := by
        refine ⟨?_, hsol.2.1, hsol.2.2⟩
        intro q hq
        by_cases hqp : q = pos
        · subst hqp; rw [setCell_same]
        · rw [setCell_other _ _ _ _ hqp] at hq ⊢
          exact hsol.1 q hq
      have hkt := hc (setCell g pos (S pos))
        (st ++ [Step.tryS (pos / 9) (pos % 9) (S pos)]) ⟨S, hsol'⟩
      rw [if_pos hkt]
      exact hkt
    · by_cases hsafe : isSafe g (pos / 9) (pos % 9) num = true
      · rw [if_pos hsafe]
        by_cases hrt : (k (setCell g pos num)
            (st ++ [Step.tryS (pos / 9) (pos % 9) num])).1 = true
        · rw [if_pos hrt]; exact hrt
        · rw [if_neg hrt]
          have hg' := hk (setCell g pos num)
            (st ++ [Step.tryS (pos / 9) (pos % 9) num]) (by simpa using hrt)
          rw [hg', setCell_setCell, setCell_zero_eq g pos hz]
          exact ih (num + 1) g _ S (by omega) hz hp hsol (by omega)
      · rw [if_neg hsafe]
        exact ih (num + 1) g st S (by omega) hz hp hsol (by omega)

/-- Completeness of `_solve_step_by_step` (`sudoku_lib/solver.py`): from any
grid that has a valid completion, the backtracker returns `True`. -/
theorem libAux_complete :
    ∀ fuel g pos st, pos + fuel = 81 → (∃ S, solutionOf g S) →
      (libAux fuel g pos st).1 = true := by
  intro fuel
  induction fuel with
  | zero => intro g pos st _ _; rfl
  | succ fuel ih =>
    intro g pos st hpf hex
    rw [libAux]
    by_cases hnz : (g pos != 0) = true
    · rw [if_pos hnz]
      exact ih g (pos + 1) st (by omega) hex
    · rw [if_neg hnz]
      have hz : g pos = 0 := by simpa using hnz
      obtain ⟨S, hS⟩ := hex
      exact libDig_complete _ pos (fun g' st' => libAux_restore fuel g' (pos + 1) st')
        (fun g' st' hex' => ih g' (pos + 1) st' (by omega) hex') 9 1 g st S (by omega)
        hz (by omega) hS (validComplete_range hS.2.2 (by omega)).1

/-- `_solve_step_by_step(0, 0, steps)` succeeds on every solvable grid. -/
theorem solveStepByStep_complete {g : Grid} (hex : ∃ S, solutionOf g S) :
    (solveStepByStep g).1 = true :=
  libAux_complete 81 g 0 [] (by omega) hex

/-- A fresh `solve` call of `sudoku_lib/solver.py` succeeds on every solvable
grid. -/
theorem libSolveFresh_complete {g : Grid} (hex : ∃ S, solutionOf g S) :
    (libSolveFresh g).1 = true := by
  rw [libSolveFresh_eq, if_pos (solveStepByStep_complete hex)]

/-- Success of a fresh `solve` call of `sudoku_lib/solver.py` on a valid
partial grid is exactly the existence of a valid completion. -/
theorem libSolveFresh_iff {g : Grid} (hv : validPartial g) :
    (libSolveFresh g).1 = true ↔ ∃ S, solutionOf g S := by
  constructor
  · intro hs
    obtain ⟨hc, hvc, hext⟩ := libSolveFresh_sound hv hs
    exact ⟨(libSolveFresh g).2.2.grid, hext, hc, hvc⟩
  · exact libSolveFresh_complete

/-- Flipping a counted predicate from `true` to `false` at one element of a
duplicate-free list lowers the count by exactly one. -/
theorem countP_update_false {p : Nat} :
    ∀ l : List Nat, l.Nodup → p ∈ l →
      ∀ f f' : Nat → Bool, f p = true → f' p = false → (∀ q, q ≠ p → f' q = f q) →
      l.countP f' + 1 = l.countP f := by
  intro l
  induction l with
  | nil => intro _ hm; cases hm
  | cons a l ih =>
    intro hnd hm f f' hfp hfp' hagree
    rw [List.countP_cons, List.countP_cons]
    by_cases hap : a = p
    · subst hap
      have hal : a ∉ l := (List.nodup_cons.1 hnd).1
      have hcongr : l.countP f' = l.countP f :=
        List.countP_congr fun q hq => by
          rw [hagree q (fun e => hal (e ▸ hq))]
      rw [hcongr, hfp, hfp']
      simp
    · have hm' : p ∈ l := List.mem_of_ne_of_mem (fun e => hap e.symm) hm
      rw [hagree a hap]
      have := ih (List.nodup_cons.1 hnd).2 hm' f f' hfp hfp' hagree
      by_cases hfa : f a = true
      · rw [if_pos hfa]
        omega
      · rw [if_neg hfa]
        omega

/-- Writing a non-zero value into an empty cell lowers the number of empty
cells by one. -/
theorem zerosCount_setCell {g : Grid} {p v : Nat} (hp : p < 81) (hz : g p = 0)
    (hv : v ≠ 0) : zerosCount (setCell g p v) + 1 = zerosCount g := by
  unfold zerosCount
  refine countP_update_false (List.range 81) (List.nodup_range 81) (List.mem_range.2 hp)
    _ _ ?_ ?_ ?_
  · simp [hz]
  · simp [setCell_same, hv]
  · intro q hq
    simp [setCell_other _ _ _ _ hq]

theorem zerosCount_le_81 (g : Grid) : zerosCount g ≤ 81 := by
  unfold zerosCount
  exact le_trans (List.countP_le_length _) (by simp)

/-- Completeness of the `game.py` digit loop, parametric in the continuation
`k`, which is assumed complete on grids with one empty cell fewer. -/
theorem gameDig_complete (k : Grid → Bool × Grid) (pos n : Nat)
    (hk : ∀ g, (k g).1 = false → (k g).2 = g)
    (hc : ∀ g, (∃ S, solutionOf g S) → zerosCount g + 1 = n → (k g).1 = true) :
    ∀ d num g S, num + d = 10 → g pos = 0 → pos < 81 → zerosCount g = n →
      solutionOf g S → num ≤ S pos → (gameDig k d g pos num).1 = true := by
  intro d
  induction d with
  | zero =>
    intro num g S hnd hz hp hn hsol hle
    exfalso
    have := validComplete_range hsol.2.2 hp
    omega
  | succ d ih =>
    intro num g S hnd hz hp hn hsol hle
    rw [gameDig]
    by_cases heq : num = S pos
    · subst heq
      have hsafe := isSafe_of_solution hsol hp hz
      rw [if_pos hsafe]
      have hsol' : solutionOf (setCell g pos (S pos)) S := by
        refine ⟨?_, hsol.2.1, hsol.2.2⟩
        intro q hq
        by_cases hqp : q = pos
        · subst hqp; rw [setCell_same]
        · rw [setCell_other _ _ _ _ hqp] at hq ⊢
          exact hsol.1 q hq
      have hcnt : zerosCount (setCell g pos (S pos)) + 1 = n := by
        rw [← hn]
        exact zerosCount_setCell hp hz (by
          have := validComplete_range hsol.2.2 hp
          omega)
      have hkt := hc (setCell g pos (S pos)) ⟨S, hsol'⟩ hcnt
      rw [if_pos hkt]
      exact hkt
    · by_cases hsafe : isSafe g (pos / 9) (pos % 9) num = true
      · rw [if_pos hsafe]
        by_cases hrt : (k (setCell g pos num)).1 = true
        · rw [if_pos hrt]; exact hrt
        · rw [if_neg hrt]
          have hg' := hk (setCell g pos num) (by simpa using hrt)
          rw [hg', setCell_setCell, setCell_zero_eq g pos hz]
          exact ih (num + 1) g S (by omega) hz hp hn hsol (by omega)
      · rw [if_neg hsafe]
        exact ih (num + 1) g S (by omega) hz hp hn hsol (by omega)

/-- Completeness of `_solve_grid` (`sudoku_lib/game.py`): with fuel above the
number of empty cells, the backtracker succeeds on every solvable grid. -/
theorem gameAux_complete :
    ∀ fuel g, zerosCount g < fuel → (∃ S, solutionOf g S) →
      (gameAux fuel g).1 = true := by
  intro fuel
  induction fuel with
  | zero => intro g h _; exact absurd h (Nat.not_lt_zero _)
  | succ fuel ih =>
    intro g hfc hex
    rw [gameAux]
    cases hfe : findEmpty g with
    | none => rfl
    | some p =>
      obtain ⟨S, hS⟩ := hex
      have hz := findEmpty_zero hfe
      have hp := findEmpty_lt hfe
      refine gameDig_complete _ p (zerosCount g) (fun g' => gameAux_restore fuel g')
        ?_ 9 1 g S (by omega) hz hp rfl hS (validComplete_range hS.2.2 hp).1
      intro g' hex' hcnt
      exact ih g' (by omega) hex'

/-- `self._solve_grid(grid)` of `sudoku_lib/game.py` succeeds on every
solvable grid. -/
theorem gameSolveGrid_complete {g : Grid} (hex : ∃ S, solutionOf g S) :
    (gameSolveGrid g).1 = true :=
  gameAux_complete 82 g (by have := zerosCount_le_81 g; omega) hex

/-- Soundness of the `game.py` digit loop, parametric in the continuation. -/
theorem gameDig_sound (k : Grid → Bool × Grid) (pos : Nat)
    (hk : ∀ g, (k g).1 = false → (k g).2 = g)
    (hs : ∀ g, inRange g → noConflicts g → (k g).1 = true →
      complete (k g).2 ∧ inRange (k g).2 ∧ noConflicts (k g).2) :
    ∀ d num g, 1 ≤ num → num + d = 10 → g pos = 0 → pos < 81 → inRange g →
      noConflicts g → (gameDig k d g pos num).1 = true →
      complete (gameDig k d g pos num).2 ∧ inRange (gameDig k d g pos num).2 ∧
        noConflicts (gameDig k d g pos num).2 := by
  intro d
  induction d with
  | zero => intro num g _ _ _ _ _ _ ht; simp [gameDig] at ht
  | succ d ih =>
    intro num g hn1 hnd hz hlt hr hnc ht
    rw [gameDig] at ht ⊢
    by_cases hsafe : isSafe g (pos / 9) (pos % 9) num = true
    · rw [if_pos hsafe] at ht ⊢
      by_cases hrt : (k (setCell g pos num)).1 = true
      · rw [if_pos hrt] at ht ⊢
        have hnum0 : num ≠ 0 := by omega
        have hnum9 : num ≤ 9 := by omega
        exact hs (setCell g pos num) (inRange_setCell hr hnum9)
          (noConflicts_setCell hnc hz hlt hsafe hnum0) hrt
      · rw [if_neg hrt] at ht ⊢
        have hg' := hk (setCell g pos num) (by simpa using hrt)
        rw [hg', setCell_setCell, setCell_zero_eq g pos hz] at ht ⊢
        exact ih (num + 1) g (by omega) (by omega) hz hlt hr hnc ht
    · rw [if_neg hsafe] at ht ⊢
      exact ih (num + 1) g (by omega) (by omega) hz hlt hr hnc ht

/-- If `_find_empty` reports no empty cell, the grid is complete. -/
theorem findEmpty_none_complete {g : Grid} (hfe : findEmpty g = none) : complete g := by
  intro p hp h0
  unfold findEmpty at hfe
  have := List.find?_eq_none.1 hfe p (List.mem_range.2 hp)
  exact this (by simp [h0])

/-- Soundness of `_solve_grid` (`sudoku_lib/game.py`): success from a
consistent in-range grid yields a complete, in-range, conflict-free grid. -/
theorem gameAux_sound :
    ∀ fuel g, inRange g → noConflicts g → (gameAux fuel g).1 = true →
      complete (gameAux fuel g).2 ∧ inRange (gameAux fuel g).2 ∧
        noConflicts (gameAux fuel g).2 := by
  intro fuel
  induction fuel with
  | zero => intro g _ _ ht; simp [gameAux] at ht
  | succ fuel ih =>
    intro g hr hnc ht
    rw [gameAux] at ht ⊢
    cases hfe : findEmpty g with
    | none => exact ⟨findEmpty_none_complete hfe, hr, hnc⟩
    | some p =>
      rw [hfe] at ht
      exact gameDig_sound _ p (fun g' => gameAux_restore fuel g') (fun g' => ih g') 9 1 g
        (by omega) (by omega) (findEmpty_zero hfe) (findEmpty_lt hfe) hr hnc ht

/-- Success of `_solve_grid` on a valid partial grid yields a valid complete
grid extending it. -/
theorem gameSolveGrid_sound {g : Grid} (hv : validPartial g)
    (hs : (gameSolveGrid g).1 = true) :
    complete (gameSolveGrid g).2 ∧ validComplete (gameSolveGrid g).2 ∧
      extendsTo g (gameSolveGrid g).2 := by
  have h := gameAux_sound 82 g hv.1 hv.2 hs
  exact ⟨h.1, validComplete_of h.1 h.2.1 h.2.2, gameAux_extendsTo 82 g⟩

/-- Success of `_solve_grid` on a valid partial grid is exactly the existence
of a valid completion. -/
theorem gameSolveGrid_iff {g : Grid} (hv : validPartial g) :
    (gameSolveGrid g).1 = true ↔ ∃ S, solutionOf g S := by
  constructor
  · intro hs
    obtain ⟨hc, hvc, hext⟩ := gameSolveGrid_sound hv hs
    exact ⟨(gameSolveGrid g).2, hext, hc, hvc⟩
  · exact gameSolveGrid_complete

/-! ### The generator of `sudoku_lib/game.py`: conditional round trip

The theorems below reduce the correctness of `new_game` to a single
hypothesis: that `_solve_grid` succeeds on the diagonal fill handed to it by
`_generate_solution` (by `gameSolveGrid_iff`, exactly the existence of a
valid completion of the three filled diagonal boxes). -/

theorem generateSolution_eq (n0 n1 n2 : List Nat) :
    generateSolution n0 n1 n2 = (gameSolveGrid (diagGrid n0 n1 n2)).2 := rfl

/-- Blanking a list of cells changes no other cell. -/
theorem foldl_setZero_cases :
    ∀ (ps : List Nat) (g : Grid) (q : Nat),
      (ps.foldl (fun acc p => setCell acc p 0) g) q = g q ∨
        (ps.foldl (fun acc p => setCell acc p 0) g) q = 0 := by
  intro ps
  induction ps with
  | nil => intro g q; exact Or.inl rfl
  | cons a ps ih =>
    intro g q
    rw [List.foldl_cons]
    rcases ih (setCell g a 0) q with h | h
    · by_cases hqa : q = a
      · subst hqa
        rw [setCell_same] at h
        exact Or.inr h
      · rw [setCell_other _ _ _ _ hqa] at h
        exact Or.inl h
    · exact Or.inr h

/-- Every given of a `new_game` puzzle carries the value of the generated
solution grid: the puzzle extends into it. -/
theorem newGame_extendsTo (difficulty : String) (n0 n1 n2 order : List Nat) :
    extendsTo (newGame difficulty n0 n1 n2 order) (generateSolution n0 n1 n2) := by
  intro q hq
  unfold newGame at hq ⊢
  rcases foldl_setZero_cases (order.take (cellsToRemove difficulty))
      (generateSolution n0 n1 n2) q with h | h
  · exact h.symm
  · exact absurd h hq

/-- Conditional round trip: when the diagonal fill is a valid partial grid
and `_solve_grid` completes it, every puzzle `new_game` derives from it is
accepted by the `solve` of `sudoku_lib/solver.py`. -/
theorem newGame_solvable (difficulty : String) (n0 n1 n2 order : List Nat)
    (hv : validPartial (diagGrid n0 n1 n2))
    (hs : (gameSolveGrid (diagGrid n0 n1 n2)).1 = true) :
    (libSolveFresh (newGame difficulty n0 n1 n2 order)).1 = true := by
  obtain ⟨hc, hvc, hext⟩ := gameSolveGrid_sound hv hs
  refine libSolveFresh_complete ⟨generateSolution n0 n1 n2,
    newGame_extendsTo difficulty n0 n1 n2 order, ?_, ?_⟩
  · rw [generateSolution_eq]; exact hc
  · rw [generateSolution_eq]; exact hvc

/-- A complete grid has all `81` cells filled. -/
theorem complete_filledCount {g : Grid} (hc : complete g) : filledCount g = 81 := by
  unfold filledCount
  have h : (List.range 81).countP (fun p => g p != 0) = (List.range 81).length :=
    List.countP_eq_length.2 fun a ha => by simpa using hc a (List.mem_range.1 ha)
  rw [h]
  simp

/-- Blanking distinct filled cells lowers the filled-cell count by exactly
the number of blanked cells. -/
theorem foldl_setZero_filledCount :
    ∀ (ps : List Nat) (g : Grid), ps.Nodup → (∀ p ∈ ps, p < 81) → (∀ p ∈ ps, g p ≠ 0) →
      filledCount (ps.foldl (fun acc p => setCell acc p 0) g) + ps.length =
        filledCount g := by
  intro ps
  induction ps with
  | nil => intro g _ _ _; simp
  | cons a ps ih =>
    intro g hnd hlt hnz
    rw [List.foldl_cons, List.length_cons]
    have ha81 : a < 81 := hlt a (List.mem_cons_self a ps)
    have hga : g a ≠ 0 := hnz a (List.mem_cons_self a ps)
    have hanotin : a ∉ ps := (List.nodup_cons.1 hnd).1
    have hstep : filledCount (setCell g a 0) + 1 = filledCount g := by
      unfold filledCount
      refine countP_update_false (List.range 81) (List.nodup_range 81)
        (List.mem_range.2 ha81) _ _ ?_ ?_ ?_
      · simp [hga]
      · simp [setCell_same]
      · intro q hq
        simp [setCell_other _ _ _ _ hq]
    have hrec := ih (setCell g a 0) (List.nodup_cons.1 hnd).2
      (fun p hp => hlt p (List.mem_cons_of_mem a hp))
      (fun p hp => by
        have hpa : p ≠ a := fun e => hanotin (by rw [← e]; exact hp)
        rw [setCell_other _ _ _ _ hpa]
        exact hnz p (List.mem_cons_of_mem a hp))
    omega

/-- Conditional count theorem for `new_game`: under the same hypotheses as
`newGame_solvable`, with the shuffled position list duplicate-free, in range
and long enough, the produced puzzle has exactly `81 - cells_to_remove`
givens. -/
theorem newGame_filledCount (difficulty : String) (n0 n1 n2 order : List Nat)
    (hv : validPartial (diagGrid n0 n1 n2))
    (hs : (gameSolveGrid (diagGrid n0 n1 n2)).1 = true)
    (hnd : order.Nodup) (hlt : ∀ p ∈ order, p < 81)
    (hlen : cellsToRemove difficulty ≤ order.length) :
    filledCount (newGame difficulty n0 n1 n2 order) + cellsToRemove difficulty = 81 := by
  have hc : complete (generateSolution n0 n1 n2) := by
    rw [generateSolution_eq]
    exact (gameSolveGrid_sound hv hs).1
  have htsub := List.take_sublist (cellsToRemove difficulty) order
  have htnd : (order.take (cellsToRemove difficulty)).Nodup :=
    List.Nodup.sublist htsub hnd
  have htlt : ∀ p ∈ order.take (cellsToRemove difficulty), p < 81 :=
    fun p hp => hlt p (List.Sublist.mem hp htsub)
  have htnz : ∀ p ∈ order.take (cellsToRemove difficulty),
      generateSolution n0 n1 n2 p ≠ 0 :=
    fun p hp => hc p (htlt p hp)
  have hfold := foldl_setZero_filledCount (order.take (cellsToRemove difficulty))
    (generateSolution n0 n1 n2) htnd htlt htnz
  have hfull := complete_filledCount hc
  have hlen' : (order.take (cellsToRemove difficulty)).length =
      cellsToRemove difficulty := by
    rw [List.length_take]
    exact Nat.min_eq_left hlen
  unfold newGame
  omega

/-! ### The diagonal fill of `_generate_solution` is a valid partial grid -/

/-- A `_fill_box` fold leaves every cell outside its box unchanged. -/
theorem fillBox_foldl_other (row col : Nat) (nums : List Nat) :
    ∀ (l : List Nat) (g : Grid) (q : Nat),
      (∀ t ∈ l, 9 * (row + t / 3) + (col + t % 3) ≠ q) →
      (l.foldl (fun acc t => setCell acc (9 * (row + t / 3) + (col + t % 3))
        (nums.getD t 0)) g) q = g q := by
  intro l
  induction l with
  | nil => intro g q _; rfl
  | cons a l ih =>
    intro g q hne
    rw [List.foldl_cons]
    rw [ih (setCell g (9 * (row + a / 3) + (col + a % 3)) (nums.getD a 0)) q
      (fun t ht => hne t (List.mem_cons_of_mem a ht))]
    exact setCell_other _ _ _ _ (fun e => hne a (List.mem_cons_self a l) e.symm)

/-- A `_fill_box` fold writes `nums[s]` to the box cell of index `s`. -/
theorem fillBox_foldl_hit (row col : Nat) (nums : List Nat) :
    ∀ (l : List Nat) (g : Grid) (s : Nat), l.Nodup → s ∈ l → (∀ t ∈ l, t < 9) →
      (l.foldl (fun acc t => setCell acc (9 * (row + t / 3) + (col + t % 3))
        (nums.getD t 0)) g) (9 * (row + s / 3) + (col + s % 3)) = nums.getD s 0 := by
  intro l
  induction l with
  | nil => intro g s _ hm; cases hm
  | cons a l ih =>
    intro g s hnd hm hall
    rw [List.foldl_cons]
    by_cases has : a = s
    · subst has
      have hanotin : a ∉ l := (List.nodup_cons.1 hnd).1
      have ha9 : a < 9 := hall a (List.mem_cons_self a l)
      have hother := fillBox_foldl_other row col nums l
        (setCell g (9 * (row + a / 3) + (col + a % 3)) (nums.getD a 0))
        (9 * (row + a / 3) + (col + a % 3)) (by
          intro t ht he
          have ht9 : t < 9 := hall t (List.mem_cons_of_mem a ht)
          have hta : t = a := by omega
          exact hanotin (by rw [← hta]; exact ht))
      rw [hother, setCell_same]
    · have hm' : s ∈ l := List.mem_of_ne_of_mem (fun e => has e.symm) hm
      exact ih (setCell g (9 * (row + a / 3) + (col + a % 3)) (nums.getD a 0)) s
        (List.nodup_cons.1 hnd).2 hm' (fun t ht => hall t (List.mem_cons_of_mem a ht))

/-- `_fill_box` evaluated inside its own box. -/
theorem fillBox_hit (g : Grid) (row col : Nat) (nums : List Nat)
    {s : Nat} (hs : s < 9) :
    fillBox g row col nums (9 * (row + s / 3) + (col + s % 3)) = nums.getD s 0 := by
  unfold fillBox
  exact fillBox_foldl_hit row col nums (List.range 9) g s (List.nodup_range 9)
    (List.mem_range.2 hs) (fun t ht => List.mem_range.1 ht)

/-- `_fill_box` evaluated outside its box. -/
theorem fillBox_other (g : Grid) (row col : Nat) (nums : List Nat) {q : Nat}
    (hq : ∀ t, t < 9 → 9 * (row + t / 3) + (col + t % 3) ≠ q) :
    fillBox g row col nums q = g q := by
  unfold fillBox
  exact fillBox_foldl_other row col nums (List.range 9) g q
    (fun t ht => hq t (List.mem_range.1 ht))

/-- Cells outside the three diagonal boxes of the diagonal fill are `0`. -/
theorem diagGrid_off {n0 n1 n2 : List Nat} {q : Nat} (_hq : q < 81)
    (hoff : q / 27 ≠ q % 9 / 3) : diagGrid n0 n1 n2 q = 0 := by
  have e6 : diagGrid n0 n1 n2 q = fillBox (fillBox zeroGrid 0 0 n0) 3 3 n1 q :=
    fillBox_other _ 6 6 _ (by intro t ht he; omega)
  have e3 : fillBox (fillBox zeroGrid 0 0 n0) 3 3 n1 q = fillBox zeroGrid 0 0 n0 q :=
    fillBox_other _ 3 3 _ (by intro t ht he; omega)
  have e0 : fillBox zeroGrid 0 0 n0 q = zeroGrid q :=
    fillBox_other _ 0 0 _ (by intro t ht he; omega)
  exact e6.trans (e3.trans e0)

/-- Value of the diagonal fill inside the top-left box. -/
theorem diagGrid_box0 {n0 n1 n2 : List Nat} {q : Nat} (_hq : q < 81)
    (hb : q / 27 = 0) (hs : q % 9 / 3 = 0) :
    diagGrid n0 n1 n2 q = n0.getD (3 * (q / 9) + q % 9) 0 := by
  have e6 : diagGrid n0 n1 n2 q = fillBox (fillBox zeroGrid 0 0 n0) 3 3 n1 q :=
    fillBox_other _ 6 6 _ (by intro t ht he; omega)
  have e3 : fillBox (fillBox zeroGrid 0 0 n0) 3 3 n1 q = fillBox zeroGrid 0 0 n0 q :=
    fillBox_other _ 3 3 _ (by intro t ht he; omega)
  have hhit := fillBox_hit zeroGrid 0 0 n0 (show 3 * (q / 9) + q % 9 < 9 by omega)
  rw [show 9 * (0 + (3 * (q / 9) + q % 9) / 3) + (0 + (3 * (q / 9) + q % 9) % 3) = q
    by omega] at hhit
  exact e6.trans (e3.trans hhit)

/-- Value of the diagonal fill inside the central box. -/
theorem diagGrid_box1 {n0 n1 n2 : List Nat} {q : Nat} (_hq : q < 81)
    (hb : q / 27 = 1) (hs : q % 9 / 3 = 1) :
    diagGrid n0 n1 n2 q = n1.getD (3 * (q / 9 - 3) + (q % 9 - 3)) 0 := by
  have e6 : diagGrid n0 n1 n2 q = fillBox (fillBox zeroGrid 0 0 n0) 3 3 n1 q :=
    fillBox_other _ 6 6 _ (by intro t ht he; omega)
  have hhit := fillBox_hit (fillBox zeroGrid 0 0 n0) 3 3 n1
    (show 3 * (q / 9 - 3) + (q % 9 - 3) < 9 by omega)
  rw [show 9 * (3 + (3 * (q / 9 - 3) + (q % 9 - 3)) / 3) +
    (3 + (3 * (q / 9 - 3) + (q % 9 - 3)) % 3) = q by omega] at hhit
  exact e6.trans hhit

/-- Value of the diagonal fill inside the bottom-right box. -/
theorem diagGrid_box2 {n0 n1 n2 : List Nat} {q : Nat} (_hq : q < 81)
    (hb : q / 27 = 2) (hs : q % 9 / 3 = 2) :
    diagGrid n0 n1 n2 q = n2.getD (3 * (q / 9 - 6) + (q % 9 - 6)) 0 := by
  have hhit := fillBox_hit (fillBox (fillBox zeroGrid 0 0 n0) 3 3 n1) 6 6 n2
    (show 3 * (q / 9 - 6) + (q % 9 - 6) < 9 by omega)
  rw [show 9 * (6 + (3 * (q / 9 - 6) + (q % 9 - 6)) / 3) +
    (6 + (3 * (q / 9 - 6) + (q % 9 - 6)) % 3) = q by omega] at hhit
  exact hhit

/-- Entries of a shuffled `1..9` list lie in `[1, 9]`. -/
theorem perm_getD_range {nums : List Nat} (hperm : nums.Perm (List.range' 1 9))
    {t : Nat} (ht : t < 9) : 1 ≤ nums.getD t 0 ∧ nums.getD t 0 ≤ 9 := by
  have hlen : nums.length = 9 := by simpa using hperm.length_eq
  rw [List.getD_eq_getElem nums 0 (by omega)]
  have hmem := hperm.mem_iff.1 (List.getElem_mem (show t < nums.length by omega))
  have := List.mem_range'_1.1 hmem
  omega

/-- Distinct entries of a shuffled `1..9` list are distinct values. -/
theorem perm_getD_inj {nums : List Nat} (hperm : nums.Perm (List.range' 1 9))
    {s t : Nat} (hs : s < 9) (ht : t < 9) (hne : s ≠ t) :
    nums.getD s 0 ≠ nums.getD t 0 := by
  have hnd : nums.Nodup := hperm.nodup_iff.2 (by decide)
  have hlen : nums.length = 9 := by simpa using hperm.length_eq
  rw [List.getD_eq_getElem nums 0 (by omega), List.getD_eq_getElem nums 0 (by omega)]
  intro he
  exact hne ((List.Nodup.getElem_inj_iff hnd).1 he)

/-- With the three box fills shuffles of `1..9` — exactly what
`_generate_solution` passes — the diagonal fill is a valid partial grid. -/
theorem diagGrid_validPartial (n0 n1 n2 : List Nat)
    (h0 : n0.Perm (List.range' 1 9)) (h1 : n1.Perm (List.range' 1 9))
    (h2 : n2.Perm (List.range' 1 9)) : validPartial (diagGrid n0 n1 n2) := by
  constructor
  · intro q hq
    by_cases hdiag : q / 27 = q % 9 / 3
    · have hk : q / 27 = 0 ∨ q / 27 = 1 ∨ q / 27 = 2 := by omega
      rcases hk with hk | hk | hk
      · rw [diagGrid_box0 hq hk (by omega)]
        exact (perm_getD_range h0 (by omega)).2
      · rw [diagGrid_box1 hq hk (by omega)]
        exact (perm_getD_range h1 (by omega)).2
      · rw [diagGrid_box2 hq hk (by omega)]
        exact (perm_getD_range h2 (by omega)).2
    · rw [diagGrid_off hq hdiag]
      omega
  · intro p q hp hq hne hsg hnz heq
    by_cases hdp : p / 27 = p % 9 / 3
    case neg => exact hnz (diagGrid_off hp hdp)
    by_cases hdq : q / 27 = q % 9 / 3
    case neg =>
      rw [diagGrid_off hq hdq] at heq
      exact hnz heq
    have hsame : p / 27 = q / 27 ∧ p % 9 / 3 = q % 9 / 3 := by
      rcases hsg with hg | hg | hg
      · unfold sameRow at hg; omega
      · unfold sameCol at hg; omega
      · exact hg
    have hk : p / 27 = 0 ∨ p / 27 = 1 ∨ p / 27 = 2 := by omega
    rcases hk with hk | hk | hk
    · rw [diagGrid_box0 hp hk (by omega), diagGrid_box0 hq (by omega) (by omega)] at heq
      exact perm_getD_inj h0 (by omega) (by omega) (by omega) heq
    · rw [diagGrid_box1 hp hk (by omega), diagGrid_box1 hq (by omega) (by omega)] at heq
      exact perm_getD_inj h1 (by omega) (by omega) (by omega) heq
    · rw [diagGrid_box2 hp hk (by omega), diagGrid_box2 hq (by omega) (by omega)] at heq
      exact perm_getD_inj h2 (by omega) (by omega) (by omega) heq

/-- The grid `_generate_solution` returns is complete exactly when its
diagonal fill has a valid completion: the backtracker restores the (always
incomplete) diagonal fill on failure, so the discarded boolean is visible in
the result's completeness.  The open mathematical question behind the
generator is precisely the right-hand side. -/
theorem generateSolution_complete_iff (n0 n1 n2 : List Nat)
    (h0 : n0.Perm (List.range' 1 9)) (h1 : n1.Perm (List.range' 1 9))
    (h2 : n2.Perm (List.range' 1 9)) :
    complete (generateSolution n0 n1 n2) ↔ ∃ S, solutionOf (diagGrid n0 n1 n2) S := by
  have hv := diagGrid_validPartial n0 n1 n2 h0 h1 h2
  constructor
  · intro hc
    refine (gameSolveGrid_iff hv).1 ?_
    by_contra hf
    have hfail : (gameSolveGrid (diagGrid n0 n1 n2)).1 = false := by
      cases hb : (gameSolveGrid (diagGrid n0 n1 n2)).1 with
      | true => exact absurd hb hf
      | false => rfl
    have hres : (gameSolveGrid (diagGrid n0 n1 n2)).2 = diagGrid n0 n1 n2 :=
      gameAux_restore 82 (diagGrid n0 n1 n2) hfail
    have h3 : diagGrid n0 n1 n2 3 = 0 := diagGrid_off (by omega) (by omega)
    have hne := hc 3 (by omega)
    rw [generateSolution_eq, hres] at hne
    exact hne h3
  · intro hex
    rw [generateSolution_eq]
    exact (gameSolveGrid_sound hv (gameSolveGrid_complete hex)).1

/-- End-to-end conditional correctness of `new_game`: with the three box
fills shuffles of `1..9`, every puzzle derived from a successful
`_solve_grid` run is solvable by the `solve` of `sudoku_lib/solver.py`.  Only
the success hypothesis — equivalently, by `gameSolveGrid_iff` and
`diagGrid_validPartial`, the completability of the three filled diagonal
boxes — remains unproved here. -/
theorem newGame_correct (difficulty : String) (n0 n1 n2 order : List Nat)
    (h0 : n0.Perm (List.range' 1 9)) (h1 : n1.Perm (List.range' 1 9))
    (h2 : n2.Perm (List.range' 1 9))
    (hs : (gameSolveGrid (diagGrid n0 n1 n2)).1 = true) :
    (libSolveFresh (newGame difficulty n0 n1 n2 order)).1 = true :=
  newGame_solvable difficulty n0 n1 n2 order (diagGrid_validPartial n0 n1 n2 h0 h1 h2) hs
